import Mathlib

/-!
Verification of the examtracker question/metadata extraction core.

The definitions below are a shallow embedding of the TypeScript sources:
  - src/src/utils/storage/pdfServer.ts   (namespace PS, Pipe)
  - src/utils/questionDetector.ts        (namespace QD; the revision that
    ends by sorting tokens into document order, the variant imported by
    pdfServer.ts)
JavaScript strings are modelled as List Char, numbers used as pixel
coordinates as rationals, and the handwritten regular expressions of the
source are translated pattern by pattern into explicit matching functions
with the same backtracking behaviour.  Asynchronous collaborators
(pdf.js page content, the OCR engine) are modelled as oracle inputs.
-/

namespace ET

/-! ## JavaScript character classes -/

/-- JS regex \s for the characters that can occur in this pipeline
(space, tab, newline, carriage return, form feed, vertical tab, NBSP). -/
def jsWs (c : Char) : Bool :=
  c = ' ' || c = '\t' || c = '\n' || c = '\r' || c = '\x0b' || c = '\x0c' ||
  c = Char.ofNat 160

/-- JS regex \w, the word characters [A-Za-z0-9_]. -/
def wordChar (c : Char) : Bool :=
  (('a' ≤ c && c ≤ 'z') || ('A' ≤ c && c ≤ 'Z') || ('0' ≤ c && c ≤ '9') || c = '_')

/-- ASCII letter, the class [a-zA-Z]. -/
def asciiAlpha (c : Char) : Bool :=
  ('a' ≤ c && c ≤ 'z') || ('A' ≤ c && c ≤ 'Z')

/-- ASCII digit, the class \d. -/
def asciiDigit (c : Char) : Bool := '0' ≤ c && c ≤ '9'

/-- Digit in [1-9]. -/
def digit19 (c : Char) : Bool := '1' ≤ c && c ≤ '9'

def digitVal (c : Char) : Nat := c.toNat - '0'.toNat

/-- A word boundary between a previous character (none at the start of the
string) and a next character (none at the end). -/
def jsBoundary (prev next : Option Char) : Bool :=
  (match prev with | none => false | some c => wordChar c) ≠
  (match next with | none => false | some c => wordChar c)

def optWord : Option Char → Bool
  | none => false
  | some c => wordChar c

/-! ## Small scanning helpers -/

def dropWs (s : List Char) : List Char := s.dropWhile jsWs

def wsRunLen (s : List Char) : Nat := (s.takeWhile jsWs).length

/-- Match a literal, case-insensitively; the pattern is given in lower case.
Returns the rest of the input on success. -/
def stripLitCI : List Char → List Char → Option (List Char)
  | [], s => some s
  | _ :: _, [] => none
  | p :: ps, c :: cs => if c.toLower = p then stripLitCI ps cs else none

/-- Match a literal, case-sensitively. -/
def stripLit : List Char → List Char → Option (List Char)
  | [], s => some s
  | _ :: _, [] => none
  | p :: ps, c :: cs => if c = p then stripLit ps cs else none

def firstSome {α β : Type} (f : α → Option β) : List α → Option β
  | [] => none
  | a :: as => match f a with
    | some b => some b
    | none => firstSome f as

/-- Greedy candidates for \d{1,3}: value, consumed length and rest, in
backtracking order (longest first). -/
def digits13 (s : List Char) : List (Nat × Nat × List Char) :=
  match s with
  | c1 :: c2 :: c3 :: rest =>
    if asciiDigit c1 && asciiDigit c2 && asciiDigit c3 then
      [(100 * digitVal c1 + 10 * digitVal c2 + digitVal c3, 3, rest),
       (10 * digitVal c1 + digitVal c2, 2, c3 :: rest),
       (digitVal c1, 1, c2 :: c3 :: rest)]
    else if asciiDigit c1 && asciiDigit c2 then
      [(10 * digitVal c1 + digitVal c2, 2, c3 :: rest),
       (digitVal c1, 1, c2 :: c3 :: rest)]
    else if asciiDigit c1 then [(digitVal c1, 1, c2 :: c3 :: rest)]
    else []
  | [c1, c2] =>
    if asciiDigit c1 && asciiDigit c2 then
      [(10 * digitVal c1 + digitVal c2, 2, []), (digitVal c1, 1, [c2])]
    else if asciiDigit c1 then [(digitVal c1, 1, [c2])]
    else []
  | [c1] => if asciiDigit c1 then [(digitVal c1, 1, [])] else []
  | [] => []

/-- Greedy candidates for ([1-9]\d?): value, consumed length and rest, in
backtracking order (two digits first). -/
def num19 (s : List Char) : List (Nat × Nat × List Char) :=
  match s with
  | c1 :: c2 :: rest =>
    if digit19 c1 && asciiDigit c2 then
      [(10 * digitVal c1 + digitVal c2, 2, rest), (digitVal c1, 1, c2 :: rest)]
    else if digit19 c1 then [(digitVal c1, 1, c2 :: rest)]
    else []
  | [c1] => if digit19 c1 then [(digitVal c1, 1, [])] else []
  | [] => []

/-- One or more ASCII digits, greedily; none if the input does not start
with a digit. -/
def digitsMany (s : List Char) : Option (Nat × List Char) :=
  let run := s.takeWhile asciiDigit
  if run.isEmpty then none
  else some (run.foldl (fun a c => 10 * a + digitVal c) 0, s.dropWhile asciiDigit)

/-! ## Text normalisation (pdfServer.ts / questionDetector.ts) -/

/-- normalizeDiacritics: NFD split plus removal of combining marks.  For the
Latin letters that occur in this code base this maps a diacritic letter to
its base letter; all other characters are unchanged. -/
def normChar (c : Char) : Char :=
  if c = 'å' || c = 'ä' then 'a'
  else if c = 'Å' || c = 'Ä' then 'A'
  else if c = 'ö' then 'o'
  else if c = 'Ö' then 'O'
  else if c = 'é' || c = 'è' then 'e'
  else if c = 'É' || c = 'È' then 'E'
  else if c = 'ü' then 'u'
  else if c = 'Ü' then 'U'
  else c

def normalizeDiacritics (s : List Char) : List Char := s.map normChar

/-- normalizeDashes: figure dash, en dash, em dash and minus sign to '-'. -/
def dashChar (c : Char) : Char :=
  if c = Char.ofNat 0x2012 || c = Char.ofNat 0x2013 || c = Char.ofNat 0x2014 ||
     c = Char.ofNat 0x2212 then '-' else c

def normalizeDashes (s : List Char) : List Char := s.map dashChar

/-- replace(/[\t ]+/g, ' '): collapse runs of tabs and spaces to one space. -/
def collapseTabSpace (s : List Char) : List Char :=
  (s.foldr (fun c acc =>
    let r := acc.1
    if c = ' ' || c = '\t' then (if acc.2 then r else ' ' :: r, true)
    else (c :: r, false)) (([] : List Char), false)).1

/-- replace(/\s+\n/g, "newline"): drop a whitespace run that is followed by
a newline, keeping the newline.  The boolean of the accumulator records
whether the remaining suffix begins with optional whitespace and then a
newline. -/
def squashWsNewline (s : List Char) : List Char :=
  (s.foldr (fun c acc =>
    let r := acc.1
    if c = '\n' then (if acc.2 then r else '\n' :: r, true)
    else if jsWs c then (if acc.2 then r else c :: r, acc.2)
    else (c :: r, false)) (([] : List Char), false)).1

/-- normalizeTextKeepLines from questionDetector.ts. -/
def normalizeTextKeepLines (s : List Char) : List Char :=
  squashWsNewline (collapseTabSpace (normalizeDashes (normalizeDiacritics s)))

/-- replace(/\s+/g, ' '): collapse every whitespace run to one space. -/
def collapseAllWs (s : List Char) : List Char :=
  (s.foldr (fun c acc =>
    let r := acc.1
    if jsWs c then (if acc.2 then r else ' ' :: r, true)
    else (c :: r, false)) (([] : List Char), false)).1

/-- String.prototype.trim. -/
def jsTrim (s : List Char) : List Char :=
  ((s.dropWhile jsWs).reverse.dropWhile jsWs).reverse

/-- split(/\r?\n/), i.e. split on newlines, also consuming a carriage
return that immediately precedes the newline. -/
def splitLines (s : List Char) : List (List Char) :=
  s.foldr (fun c acc =>
    match acc with
    | [] => [[c]]
    | cur :: rest =>
      if c = '\n' then [] :: cur :: rest
      else if c = '\r' then
        (match cur, rest with
         | [], r :: rs => ([] : List Char) :: r :: rs
         | _, _ => (c :: cur) :: rest)
      else (c :: cur) :: rest) [[]]

end ET

namespace ET

/-! ## pdfServer.ts: points parsing -/

/-- Lookahead p(?:oang)? followed by a word boundary or a literal char,
shared tail of the points patterns: after the digits and optional
whitespace the source expects p, optionally the letters of poang
(diacritics already stripped), and then a boundary. -/
def pOangB (s : List Char) : Bool :=
  match s with
  | c :: rest =>
    if c.toLower = 'p' then
      (match stripLitCI ['o', 'a', 'n', 'g'] rest with
       | some r2 => jsBoundary (some 'g') r2.head?
       | none => false) ||
      jsBoundary (some 'p') rest.head?
    else false
  | [] => false

/-- Pattern 1 of parsePts: \((\d{1,3})\s*p(?:oang)?\) (case-insensitive),
tried at one position. -/
def ptsPat1At (s : List Char) : Option Nat :=
  match s with
  | '(' :: rest =>
    firstSome (fun cand =>
      let v := cand.1
      let after := dropWs cand.2.2
      match after with
      | c :: r2 =>
        if c.toLower = 'p' then
          (match stripLitCI ['o', 'a', 'n', 'g'] r2 with
           | some (')' :: _) => some v
           | _ => match r2 with
                  | ')' :: _ => some v
                  | _ => none)
        else none
      | [] => none) (digits13 rest)
  | _ => none

/-- Pattern 2 of parsePts: (\d{1,3})\s*p(?:oang)?\b, tried at one
position. -/
def ptsPat2At (s : List Char) : Option Nat :=
  firstSome (fun cand =>
    let v := cand.1
    if pOangB (dropWs cand.2.2) then some v else none) (digits13 s)

/-- Pattern 3 of parsePts: \b(?:poang|points)\s*:?\s*(\d{1,3})\b, tried at
one position (the caller checks the leading word boundary). -/
def ptsPat3At (s : List Char) : Option Nat :=
  let tail3 := fun (r : List Char) =>
    let r1 := dropWs r
    let r2 := match r1 with
              | ':' :: t => dropWs t
              | _ => r1
    firstSome (fun cand =>
      if jsBoundary (some '0') cand.2.2.head? then some cand.1 else none)
      (digits13 r2)
  match stripLitCI ['p', 'o', 'a', 'n', 'g'] s with
  | some r => tail3 r
  | none =>
    match stripLitCI ['p', 'o', 'i', 'n', 't', 's'] s with
    | some r => tail3 r
    | none => none

/-- Search an input for a position-wise matcher, JS regex style: leftmost
match wins; prev carries the previous character for boundary tests. -/
def searchPos {β : Type} (f : Option Char → List Char → Option β) :
    Option Char → List Char → Option β
  | prev, [] => f prev []
  | prev, c :: rest =>
    match f prev (c :: rest) with
    | some b => some b
    | none => searchPos f (some c) rest

/-- parsePts from pdfServer.ts (the helper shared by the three extractors):
try the three point patterns over the whole normalised segment, first
pattern that matches anywhere wins. -/
def parsePts (seg : List Char) : Option Nat :=
  let s := normalizeDiacritics seg
  match searchPos (fun _ t => ptsPat1At t) none s with
  | some v => some v
  | none =>
    match searchPos (fun _ t => ptsPat2At t) none s with
    | some v => some v
    | none =>
      searchPos (fun prev t =>
        if jsBoundary prev t.head? then ptsPat3At t else none) none s

/-- parsePtsList from pdfServer.ts:
\((\s*\d{1,3}(?:\s*\+\s*\d{1,3})+)\)\s*p?(?:oang)? — a parenthesised plus
separated list of two or more numbers; returns the numbers. -/
def ptsListNums : Nat → List Char → Option (List Nat × List Char)
  | 0, _ => none
  | _, [] => none
  | fuel + 1, s =>
    firstSome (fun cand =>
      let v := cand.1
      let rest := dropWs cand.2.2
      match rest with
      | '+' :: r2 =>
        (match ptsListNums fuel (dropWs r2) with
         | some (vs, r3) => some (v :: vs, r3)
         | none => none)
      | _ => some ([v], rest)) (digits13 s)

def ptsListAt (s : List Char) : Option (List Nat) :=
  match s with
  | '(' :: rest =>
    (match ptsListNums rest.length (dropWs rest) with
     | some (vs, r) =>
       match r with
       | ')' :: _ => if 2 ≤ vs.length then some vs else none
       | _ => none
     | none => none)
  | _ => none

def parsePtsList (seg : List Char) : Option (List Nat) :=
  let s := normalizeDiacritics seg
  searchPos (fun _ t => ptsListAt t) none s

/-- letterRange from pdfServer.ts: expand two letters to the inclusive
range of lower case letters between them, clamped to a..z. -/
def letterRange (a b : Char) : List Char :=
  let s := a.toLower.toNat
  let e := b.toLower.toNat
  let lo := max ('a'.toNat) (min s e)
  let hi := min ('z'.toNat) (max s e)
  (List.range (hi + 1 - lo)).map (fun k => Char.ofNat (lo + k))

end ET

namespace ET

/-! ## pdfServer.ts: line level regular expressions -/

def punct3 (c : Char) : Bool := c = ')' || c = '.' || c = ':'

/-- Tail \s*(?:[\)\.:]|\b) of mainLineRe, entered right after the digits:
returns the number of consumed characters, trying the greedy whitespace
first and backtracking, or none when no alternative matches.  The
character before the whitespace is a digit (a word character). -/
def mainTailLen (s : List Char) : Option Nat :=
  let run := wsRunLen s
  firstSome (fun k =>
    let s' := s.drop k
    if (match s'.head? with | some c => punct3 c | none => false) then some (k + 1)
    else if (decide (k = 0) : Bool) ≠ optWord s'.head? then some k
    else none) ((List.range (run + 1)).reverse)

/-- Prefix alternatives of mainLineRe,
(?:uppg(?:ift)?|problem|fraga|question|q)?, in JS backtracking order,
case-insensitively; each candidate is (consumed, rest), the last candidate
is the empty prefix. -/
def mainLinePrefixCands (t : List Char) : List (Nat × List Char) :=
  (([['u','p','p','g','i','f','t'], ['u','p','p','g'], ['p','r','o','b','l','e','m'],
     ['f','r','a','g','a'], ['q','u','e','s','t','i','o','n'], ['q']].filterMap
    (fun w => (stripLitCI w t).map (fun r => (w.length, r))))) ++ [(0, t)]

/-- mainLineRe from pdfServer.ts:
^(?:uppg(?:ift)?|problem|fraga|question|q)?\s*([1-9]\d?)\s*(?:[\)\.:]|\b)
(case-insensitive).  Returns the captured number and the length of the
whole match. -/
def mainLineRe (t : List Char) : Option (Nat × Nat) :=
  firstSome (fun pre =>
    let plen := pre.1
    let w := wsRunLen pre.2
    let r2 := pre.2.drop w
    firstSome (fun cand =>
      match mainTailLen cand.2.2 with
      | some tl => some (cand.1, plen + w + cand.2.1 + tl)
      | none => none) (num19 r2)) (mainLinePrefixCands t)

/-- letterLineRe from pdfServer.ts:
^(?:deluppgift\s*)?\(?([a-zA-Z])\)?\s*[\)\.:]  (case-sensitive).
Returns the captured letter and the length of the whole match. -/
def letterLineRe (t : List Char) : Option (Char × Nat) :=
  let prefixCands : List (Nat × List Char) :=
    (match stripLit ['d','e','l','u','p','p','g','i','f','t'] t with
     | some r => let w := wsRunLen r; [(10 + w, r.drop w)]
     | none => []) ++ [(0, t)]
  firstSome (fun pre =>
    let lparen : List (Nat × List Char) :=
      (match pre.2 with
       | '(' :: r => [(1, r)]
       | _ => []) ++ [(0, pre.2)]
    firstSome (fun lp =>
      match lp.2 with
      | c :: r3 =>
        if asciiAlpha c then
          let rparen : List (Nat × List Char) :=
            (match r3 with
             | ')' :: r => [(1, r)]
             | _ => []) ++ [(0, r3)]
          firstSome (fun rp =>
            let w := wsRunLen rp.2
            match (rp.2.drop w).head? with
            | some p => if punct3 p then
                some (c, pre.1 + lp.1 + 1 + rp.1 + w + 1) else none
            | none => none) rparen
        else none
      | [] => none) lparen) prefixCands

/-- Tail of combinedRe after the optional heading word:
([1-9]\d?)\s*([a-zA-Z])\s*[\)\.:] — returns consumed length, the number
and the letter. -/
def combinedTail (r : List Char) : Option (Nat × Nat × Char) :=
  firstSome (fun cand =>
    let w1 := wsRunLen cand.2.2
    match cand.2.2.drop w1 with
    | c :: r4 =>
      if asciiAlpha c then
        let w2 := wsRunLen r4
        match (r4.drop w2).head? with
        | some p => if punct3 p then some (cand.2.1 + w1 + 1 + w2 + 1, cand.1, c) else none
        | none => none
      else none
    | [] => none) (num19 r)

/-- combinedRe from pdfServer.ts, tried at one position:
(?:\b(?:uppgift|problem|fraga|question|q)\s*)?([1-9]\d?)\s*([a-zA-Z])\s*[\)\.:]
Returns (match length, number, letter). -/
def combinedAt (prev : Option Char) (s : List Char) : Option (Nat × Nat × Char) :=
  let withWord : Option (Nat × Nat × Char) :=
    if optWord prev then none
    else firstSome (fun w =>
      match stripLitCI w s with
      | some r =>
        let ws := wsRunLen r
        (combinedTail (r.drop ws)).map (fun m => (w.length + ws + m.1, m.2))
      | none => none)
      [['u','p','p','g','i','f','t'], ['p','r','o','b','l','e','m'],
       ['f','r','a','g','a'], ['q','u','e','s','t','i','o','n'], ['q']]
  match withWord with
  | some m => some m
  | none => combinedTail s

/-- Global scan of combinedRe over a string, JS exec-loop style: leftmost
matches, resuming after each match.  Returns (start index, length,
number, letter) for every match. -/
def combinedScanGo : Nat → Option Char → Nat → List Char → List (Nat × Nat × Nat × Char)
  | 0, _, _, _ => []
  | _ + 1, _, _, [] => []
  | fuel + 1, prev, pos, c :: rest =>
    match combinedAt prev (c :: rest) with
    | some (len, n, L) =>
      (pos, len, n, L) ::
        combinedScanGo fuel (((c :: rest).take len).getLast?) (pos + len) ((c :: rest).drop len)
    | none => combinedScanGo fuel (some c) (pos + 1) rest

def combinedScan (s : List Char) : List (Nat × Nat × Nat × Char) :=
  combinedScanGo (s.length + 1) none 0 s

/-- eachRe from pdfServer.ts, tried at one position:
deluppgift(?:er)?[^a-zA-Z]{0,10}([a-zA-Z])\s*[\-–—]\s*([a-zA-Z]).*?(vardera|var)
(case-insensitive; the dot does not cross a newline; since vardera begins
with var, the final group matches exactly when var occurs). -/
def dashCharEach (c : Char) : Bool :=
  c = '-' || c = Char.ofNat 0x2013 || c = Char.ofNat 0x2014

def findVarNoNl : List Char → Bool
  | [] => false
  | c :: rest =>
    if (stripLitCI ['v','a','r'] (c :: rest)).isSome then true
    else if c = '\n' then false
    else findVarNoNl rest

def eachAt (s : List Char) : Option (Char × Char) :=
  match stripLitCI ['d','e','l','u','p','p','g','i','f','t'] s with
  | some r1 =>
    let tailFrom := fun (r : List Char) =>
      let run := (r.takeWhile (fun c => !asciiAlpha c)).length
      if run ≤ 10 then
        match r.drop run with
        | a :: r2 =>
          if asciiAlpha a then
            let w1 := wsRunLen r2
            match r2.drop w1 with
            | d :: r3 =>
              if dashCharEach d then
                let w2 := wsRunLen r3
                match r3.drop w2 with
                | b :: r4 =>
                  if asciiAlpha b && findVarNoNl r4 then some (a, b) else none
                | [] => none
              else none
            | [] => none
          else none
        | [] => none
      else none
    (match stripLitCI ['e','r'] r1 with
     | some r1' =>
       match tailFrom r1' with
       | some ab => some ab
       | none => tailFrom r1
     | none => tailFrom r1)
  | none => none

def eachReMatch (s : List Char) : Option (Char × Char) :=
  searchPos (fun _ t => eachAt t) none s

end ET

namespace ET

/-! ## pdfServer.ts: shared extractor state -/

/-- A structured line as built by pdfServer.ts buildLinesFromItems:
text plus its page number. -/
structure LineP where
  text : List Char
  page : Int
deriving DecidableEq, Repr

/-- A question record as produced by the extractors (the caller managed
constant fields theme, status, difficulty and comments are omitted; the
source fills them with fixed values). -/
structure Question where
  id : String
  number : String
  points : Nat
  page : Option Int := none
  confidence : Option Int := none
deriving DecidableEq, Repr

/-- The mutable maps of the extractors: insertion ordered main numbers,
per main insertion ordered sub letters, and the points and page maps
keyed by token string. -/
structure QState where
  mainOrder : List Nat := []
  subOrder : List (Nat × List Char) := []
  pointsByToken : List (String × Nat) := []
  pageByToken : List (String × Int) := []
deriving DecidableEq, Repr

def QState.getSubs (st : QState) (n : Nat) : List Char :=
  ((st.subOrder.find? (fun p => p.1 = n)).map (fun p => p.2)).getD []

def QState.setSubs (st : QState) (n : Nat) (v : List Char) : QState :=
  { st with subOrder := st.subOrder.map (fun p => if p.1 = n then (n, v) else p) }

/-- ensureMain from the extractors: record a main number on first sight and
give it an empty sub list. -/
def QState.ensureMain (st : QState) (n : Nat) : QState :=
  let st1 := if st.mainOrder.contains n then st
             else { st with mainOrder := st.mainOrder ++ [n] }
  if (st1.subOrder.find? (fun p => p.1 = n)).isSome then st1
  else { st1 with subOrder := st1.subOrder ++ [(n, [])] }

/-- arr.push(letter) guarded by arr.includes(letter). -/
def QState.addSub (st : QState) (n : Nat) (L : Char) : QState :=
  let subs := st.getSubs n
  if subs.contains L then st else st.setSubs n (subs ++ [L])

def QState.hasPoints (st : QState) (tok : String) : Bool :=
  (st.pointsByToken.find? (fun p => p.1 = tok)).isSome

def QState.setPoints (st : QState) (tok : String) (v : Nat) : QState :=
  { st with pointsByToken := st.pointsByToken ++ [(tok, v)] }

def QState.pointsIfAbsent (st : QState) (tok : String) (v : Nat) : QState :=
  if st.hasPoints tok then st else st.setPoints tok v

def QState.hasPage (st : QState) (tok : String) : Bool :=
  (st.pageByToken.find? (fun p => p.1 = tok)).isSome

def QState.pageIfAbsent (st : QState) (tok : String) (v : Int) : QState :=
  if st.hasPage tok then st else { st with pageByToken := st.pageByToken ++ [(tok, v)] }

def QState.getPoints (st : QState) (tok : String) : Nat :=
  ((st.pointsByToken.find? (fun p => p.1 = tok)).map (fun p => p.2)).getD 0

def QState.getPage (st : QState) (tok : String) : Option Int :=
  (st.pageByToken.find? (fun p => p.1 = tok)).map (fun p => p.2)

def tokenStr (n : Nat) (L : Char) : String := toString n ++ String.singleton L

/-- Token emission shared by the extractors: walk mainOrder, emit the sub
tokens of a main in recorded order, or the bare main token, stopping after
a group once 150 tokens have accumulated. -/
def emitTokens : List Nat → QState → List String → List String
  | [], _, acc => acc
  | n :: rest, st, acc =>
    let subs := st.getSubs n
    let acc' := if subs.isEmpty then acc ++ [toString n]
                else acc ++ subs.map (fun L => tokenStr n L)
    if 150 ≤ acc'.length then acc' else emitTokens rest st acc'

/-! ## pdfServer.ts: extractQuestionsFromLines -/

/-- Process the inline combined matches of one line
(pdfServer.ts, extractQuestionsFromLines, inline combined loop). -/
def flCombined (t : List Char) (page : Int) (st : QState) : QState :=
  (combinedScan t).foldl (fun s m =>
    let idx := m.1
    let len := m.2.1
    let n := m.2.2.1
    let L := m.2.2.2.toLower
    let s := s.ensureMain n
    let s := s.addSub n L
    let tok := tokenStr n L
    let s := s.pageIfAbsent tok page
    if s.hasPoints tok then s
    else
      let ahead := (t.drop (idx + len)).take 120
      let behind := (t.take idx).drop (idx - 50)
      match parsePts ahead with
      | some p => s.setPoints tok p
      | none =>
        match parsePts behind with
        | some p => s.setPoints tok p
        | none => s) st

/-- Main heading branch of extractQuestionsFromLines for one line. -/
def flMainBranch (t : List Char) (page : Int) (n : Nat) (m0 : Nat)
    (nextNorm : Option (List Char)) (st : QState) : QState :=
  let st := st.ensureMain n
  let st := st.pageIfAbsent (toString n) page
  let rem := t.drop m0
  let pts := match parsePts rem with
             | some p => some p
             | none => match nextNorm with
                       | some nt => parsePts nt
                       | none => none
  let st := match pts with
            | some p => st.pointsIfAbsent (toString n) p
            | none => st
  let nearby := rem ++ ' ' :: nextNorm.getD []
  let st := match eachReMatch nearby with
            | some ab =>
              (match parsePts nearby with
               | some pe =>
                 (letterRange ab.1 ab.2).foldl (fun s L =>
                   let s := s.ensureMain n
                   let s := s.addSub n L
                   let tok := tokenStr n L
                   let s := s.pageIfAbsent tok page
                   s.pointsIfAbsent tok pe) st
               | none => st)
            | none => st
  match parsePtsList nearby with
  | some list =>
    let st := st.ensureMain n
    let subs0 := st.getSubs n
    let stSubs : QState × List Char :=
      if subs0.isEmpty then
        let newSubs := (List.range (min 26 list.length)).map
          (fun k => Char.ofNat ('a'.toNat + k))
        (st.setSubs n newSubs, newSubs)
      else (st, subs0)
    let st := stSubs.1
    let subs := stSubs.2
    (List.range (min subs.length list.length)).foldl (fun s k =>
      let tok := tokenStr n (subs.getD k 'a')
      let s := s.pageIfAbsent tok page
      s.pointsIfAbsent tok (list.getD k 0)) st
  | none => st

/-- Letter only branch of extractQuestionsFromLines for one line. -/
def flLetterBranch (t : List Char) (page : Int) (cm : Nat) (Lraw : Char) (m0 : Nat)
    (nextNorm : Option (List Char)) (st : QState) : QState :=
  let L := Lraw.toLower
  let st := st.ensureMain cm
  let st := st.addSub cm L
  let rem := t.drop m0
  let pts := match parsePts rem with
             | some p => some p
             | none => match nextNorm with
                       | some nt => parsePts nt
                       | none => none
  let tok := tokenStr cm L
  let st := st.pageIfAbsent tok page
  match pts with
  | some p => st.pointsIfAbsent tok p
  | none => st

/-- The line loop of extractQuestionsFromLines, threading the current main
question. -/
def flLoop : QState → Option Nat → List LineP → QState
  | st, _, [] => st
  | st, cm, ln :: rest =>
    let t := normalizeDiacritics ln.text
    let nextNorm : Option (List Char) :=
      rest.head?.map (fun l => normalizeDiacritics l.text)
    let st1 := flCombined t ln.page st
    match mainLineRe t with
    | some nm => flLoop (flMainBranch t ln.page nm.1 nm.2 nextNorm st1) (some nm.1) rest
    | none =>
      match letterLineRe t with
      | some lm =>
        (match cm with
         | some n => flLoop (flLetterBranch t ln.page n lm.1 lm.2 nextNorm st1) cm rest
         | none => flLoop st1 cm rest)
      | none => flLoop st1 cm rest

/-- extractQuestionsFromLines from pdfServer.ts. -/
def extractQuestionsFromLines (lines : List LineP) : List Question :=
  let st := flLoop {} none lines
  let tokens := emitTokens st.mainOrder st []
  tokens.map (fun tok =>
    { id := "q-" ++ tok, number := tok, points := st.getPoints tok,
      page := st.getPage tok })

end ET

namespace ET

/-! ## pdfServer.ts: extractQuestionsFromText2 -/

/-- The combined match loop of extractQuestionsFromText2, which stops once
eighty main numbers have been recorded. -/
def t2Combined (normalized : List Char) : List (Nat × Nat × Nat × Char) → QState → QState
  | [], st => st
  | m :: rest, st =>
    let idx := m.1
    let len := m.2.1
    let n := m.2.2.1
    let L := m.2.2.2.toLower
    let st := st.ensureMain n
    let st := st.addSub n L
    let tok := tokenStr n L
    let st :=
      if st.hasPoints tok then st
      else
        let ahead := (normalized.drop (idx + len)).take 120
        let behind := (normalized.take idx).drop (idx - 50)
        match parsePts ahead with
        | some p => st.setPoints tok p
        | none =>
          match parsePts behind with
          | some p => st.setPoints tok p
          | none => st
    if 80 ≤ st.mainOrder.length then st else t2Combined normalized rest st

/-- Main heading branch of the text2 line loop (points only set when the
main has no recorded sub letters). -/
def t2MainBranch (line : List Char) (n : Nat) (m0 : Nat)
    (nextRaw : Option (List Char)) (st : QState) : QState :=
  let st := st.ensureMain n
  let rem := line.drop m0
  let pts := match parsePts rem with
             | some p => some p
             | none => match nextRaw with
                       | some nt => parsePts nt
                       | none => none
  let st := match pts with
            | some p =>
              if (st.getSubs n).isEmpty then st.pointsIfAbsent (toString n) p else st
            | none => st
  let nearby := rem ++ ' ' :: nextRaw.getD []
  let st := match eachReMatch nearby with
            | some ab =>
              (match parsePts nearby with
               | some pe =>
                 (letterRange ab.1 ab.2).foldl (fun s L =>
                   let s := s.ensureMain n
                   let s := s.addSub n L
                   s.pointsIfAbsent (tokenStr n L) pe) st
               | none => st)
            | none => st
  match parsePtsList nearby with
  | some list =>
    let st := st.ensureMain n
    let subs0 := st.getSubs n
    let stSubs : QState × List Char :=
      if subs0.isEmpty then
        let newSubs := (List.range (min 26 list.length)).map
          (fun k => Char.ofNat ('a'.toNat + k))
        (st.setSubs n newSubs, newSubs)
      else (st, subs0)
    (List.range (min stSubs.2.length list.length)).foldl (fun s k =>
      s.pointsIfAbsent (tokenStr n (stSubs.2.getD k 'a')) (list.getD k 0)) stSubs.1
  | none => st

/-- The raw line loop of extractQuestionsFromText2. -/
def t2Loop : QState → Option Nat → List (List Char) → QState
  | st, _, [] => st
  | st, cm, line :: rest =>
    match mainLineRe line with
    | some nm => t2Loop (t2MainBranch line nm.1 nm.2 rest.head? st) (some nm.1) rest
    | none =>
      match letterLineRe line with
      | some lm =>
        (match cm with
         | some n =>
           let L := lm.1.toLower
           let st := st.ensureMain n
           let st := st.addSub n L
           let rem := line.drop lm.2
           let pts := match parsePts rem with
                      | some p => some p
                      | none => match rest.head? with
                                | some nt => parsePts nt
                                | none => none
           let st := match pts with
                     | some p => st.pointsIfAbsent (tokenStr n L) p
                     | none => st
           t2Loop st cm rest
         | none => t2Loop st cm rest)
      | none => t2Loop st cm rest

/-- Core of mainGlobalRe after the leading ^ or non alphanumeric
character: (?:\b(?:uppg(?:ift)?|problem|fraga|question|q)\s*)?([1-9]\d?)
with lookahead (?=\s|[\)\.:]).  Returns (consumed length, number). -/
def mainGlobalCore (prev : Option Char) (s : List Char) : Option (Nat × Nat) :=
  let digitsPart := fun (r : List Char) =>
    firstSome (fun cand =>
      match cand.2.2.head? with
      | some c => if jsWs c || punct3 c then some (cand.2.1, cand.1) else none
      | none => none) (num19 r)
  let withPrefix : Option (Nat × Nat) :=
    if optWord prev then none
    else firstSome (fun w =>
      match stripLitCI w s with
      | some r =>
        let ws := wsRunLen r
        (digitsPart (r.drop ws)).map (fun m => (w.length + ws + m.1, m.2))
      | none => none)
      [['u','p','p','g','i','f','t'], ['u','p','p','g'], ['p','r','o','b','l','e','m'],
       ['f','r','a','g','a'], ['q','u','e','s','t','i','o','n'], ['q']]
  match withPrefix with
  | some m => some m
  | none => digitsPart s

/-- mainGlobalRe of extractQuestionsFromText2, tried at one position:
(?:^|[^A-Za-z0-9])(?:uprefix)?([1-9]\d?)(?=\s|[\)\.:]).
Returns (match length, number). -/
def mainGlobalAt (atStart : Bool) (s : List Char) :
    Option (Nat × Nat) :=
  let viaStart : Option (Nat × Nat) :=
    if atStart then mainGlobalCore none s else none
  match viaStart with
  | some m => some m
  | none =>
    match s with
    | c :: rest =>
      if ¬ (asciiAlpha c || asciiDigit c) then
        (mainGlobalCore (some c) rest).map (fun m => (m.1 + 1, m.2))
      else none
    | [] => none

/-- exec loop of mainGlobalRe: list of (number, match index). -/
def mainHitsGo : Nat → Bool → Nat → List Char → List (Nat × Nat)
  | 0, _, _, _ => []
  | _ + 1, _, _, [] => []
  | fuel + 1, atStart, pos, c :: rest =>
    match mainGlobalAt atStart (c :: rest) with
    | some (len, n) =>
      (n, pos) :: mainHitsGo fuel false (pos + len) ((c :: rest).drop len)
    | none => mainHitsGo fuel false (pos + 1) rest

def mainHits (s : List Char) : List (Nat × Nat) :=
  mainHitsGo (s.length + 1) true 0 s

/-- Core of letterAnyRe after the leading ^ or non alphanumeric character:
(?:deluppgift\s*)?\(?([a-zA-Z])\)?\s*[\)\.:] (case-sensitive).
Returns (consumed length, letter). -/
def letterAnyCore (s : List Char) : Option (Nat × Char) :=
  let prefixCands : List (Nat × List Char) :=
    (match stripLit ['d','e','l','u','p','p','g','i','f','t'] s with
     | some r => let w := wsRunLen r; [(10 + w, r.drop w)]
     | none => []) ++ [(0, s)]
  firstSome (fun pre =>
    let lparen : List (Nat × List Char) :=
      (match pre.2 with
       | '(' :: r => [(1, r)]
       | _ => []) ++ [(0, pre.2)]
    firstSome (fun lp =>
      match lp.2 with
      | c :: r3 =>
        if asciiAlpha c then
          let rparen : List (Nat × List Char) :=
            (match r3 with
             | ')' :: r => [(1, r)]
             | _ => []) ++ [(0, r3)]
          firstSome (fun rp =>
            let w := wsRunLen rp.2
            match (rp.2.drop w).head? with
            | some p => if punct3 p then
                some (pre.1 + lp.1 + 1 + rp.1 + w + 1, c) else none
            | none => none) rparen
        else none
      | [] => none) lparen) prefixCands

/-- letterAnyRe tried at one position; returns (match length, letter). -/
def letterAnyAt (atStart : Bool) (s : List Char) : Option (Nat × Char) :=
  let viaStart : Option (Nat × Char) :=
    if atStart then letterAnyCore s else none
  match viaStart with
  | some m => some m
  | none =>
    match s with
    | c :: rest =>
      if ¬ (asciiAlpha c || asciiDigit c) then
        (letterAnyCore rest).map (fun m => (m.1 + 1, m.2))
      else none
    | [] => none

/-- exec loop of letterAnyRe: list of (index, match length, letter). -/
def letterHitsGo : Nat → Bool → Nat → List Char → List (Nat × Nat × Char)
  | 0, _, _, _ => []
  | _ + 1, _, _, [] => []
  | fuel + 1, atStart, pos, c :: rest =>
    match letterAnyAt atStart (c :: rest) with
    | some (len, L) =>
      (pos, len, L) :: letterHitsGo fuel false (pos + len) ((c :: rest).drop len)
    | none => letterHitsGo fuel false (pos + 1) rest

def letterHits (s : List Char) : List (Nat × Nat × Char) :=
  letterHitsGo (s.length + 1) true 0 s

/-- The letter binding loop of extractQuestionsFromText2: attach each
letter hit to the closest preceding main hit. -/
def t2Bind (normalized : List Char) (hits : List (Nat × Nat)) : QState → QState :=
  fun st =>
    (letterHits normalized).foldl (fun s lh =>
      let pos := lh.1
      let len := lh.2.1
      let L := lh.2.2.toLower
      match (hits.filter (fun h => h.2 ≤ pos)).getLast? with
      | some h =>
        let attached := h.1
        let s := s.ensureMain attached
        let s := s.addSub attached L
        let tok := tokenStr attached L
        if s.hasPoints tok then s
        else
          let endp := pos + len
          let ahead := (normalized.drop endp).take 120
          let behind := (normalized.take pos).drop (pos - 50)
          match parsePts ahead with
          | some p => s.setPoints tok p
          | none =>
            match parsePts behind with
            | some p => s.setPoints tok p
            | none => s
      | none => s) st

/-- extractQuestionsFromText2 from pdfServer.ts. -/
def extractQuestionsFromText2 (text : List Char) : List Question :=
  let normalized := jsTrim (collapseAllWs (normalizeDiacritics text))
  let st := t2Combined normalized (combinedScan normalized) {}
  let rawLines := (splitLines text).map jsTrim
  let st := t2Loop st none rawLines
  let st := t2Bind normalized (mainHits normalized) st
  let tokens := emitTokens st.mainOrder st []
  tokens.map (fun tok =>
    { id := "q-" ++ tok, number := tok, points := st.getPoints tok })

end ET

namespace ET

/-! ## questionDetector.ts: data model -/

structure PdfTextItem where
  str : List Char
  transform : Option (List ℚ) := none
  hasEOL : Bool := false
deriving DecidableEq, Repr

structure PageInput where
  page : Int
  items : List PdfTextItem
  width : Option ℚ := none
  height : Option ℚ := none
deriving DecidableEq, Repr

/-- DetectorConfig with the DEFAULT_CONFIG values as defaults; the source
merges partial overrides into the defaults, so a run with no overrides
uses exactly these values. -/
structure DetectorConfig where
  yTolerancePx : ℚ := 3
  gapXThresholdPx : ℚ := 4
  leftMarginPercentile : ℚ := 25
  headerFooterPercent : ℚ := 7
  scoreThreshold : Int := 2
  contextWindow : Nat := 120
  debug : Bool := false
deriving DecidableEq, Repr

def defaultConfig : DetectorConfig := {}

structure Line where
  page : Int
  text : List Char
  x : ℚ
  y : ℚ
deriving DecidableEq, Repr

inductive TokenKind where
  | main
  | sub
deriving DecidableEq, Repr

structure Token where
  token : String
  kind : TokenKind
  parent : Option String := none
  page : Int
  x : ℚ
  y : ℚ
  confidence : ℚ
  positions : List (Int × ℚ × ℚ) := []
deriving DecidableEq, Repr

/-! ## questionDetector.ts: line reconstruction -/

structure Span where
  text : List Char
  x : ℚ
  y : ℚ
deriving DecidableEq, Repr

structure Bucket where
  y : ℚ
  parts : List Span
deriving DecidableEq, Repr

/-- The non-empty glyph runs of a page with their transform origin
(x = transform[4], y = transform[5], zero when absent). -/
def spansOf (items : List PdfTextItem) : List Span :=
  items.filterMap (fun it =>
    if it.str.isEmpty then none
    else some { text := it.str,
                x := match it.transform with
                     | some tr => tr.getD 4 0
                     | none => 0,
                y := match it.transform with
                     | some tr => tr.getD 5 0
                     | none => 0 })

/-- Comparator (b.y - a.y) || (a.x - b.x) of the span sort: y descending,
then x ascending. -/
def spanLE (a b : Span) : Prop :=
  b.y < a.y ∨ (a.y = b.y ∧ a.x ≤ b.x)

instance : DecidableRel spanLE := fun a b => by
  unfold spanLE; infer_instance

/-- Greedy assignment of one span to the first bucket within the y
tolerance, else a fresh bucket at the end. -/
def addSpan (yTol : ℚ) : List Bucket → Span → List Bucket
  | [], sp => [{ y := sp.y, parts := [sp] }]
  | b :: bs, sp =>
    if |b.y - sp.y| ≤ yTol then { b with parts := b.parts ++ [sp] } :: bs
    else b :: addSpan yTol bs sp

def bucketsOf (yTol : ℚ) (items : List PdfTextItem) : List Bucket :=
  ((spansOf items).insertionSort spanLE).foldl (addSpan yTol) []

/-- Compose the text of one bucket: parts sorted by x, fragments joined
with a space when the x gap to the previous fragment exceeds the gap
threshold. -/
def composeParts (gapX : ℚ) (parts : List Span) : List Char :=
  (parts.foldl (fun (acc : List Char × Option ℚ) p =>
    let txt := acc.1
    let withGap :=
      match acc.2 with
      | some prevX => if ¬txt.isEmpty ∧ gapX < p.x - prevX then txt ++ [' '] else txt
      | none => txt
    (withGap ++ p.text, some p.x)) ([], none)).1

def xLE (a b : Span) : Prop := a.x ≤ b.x

instance : DecidableRel xLE := fun a b => by
  unfold xLE; infer_instance

/-- buildLinesFromItems from questionDetector.ts. -/
def buildLinesFromItems (items : List PdfTextItem) (page : Int)
    (cfg : DetectorConfig := defaultConfig) : List Line :=
  (bucketsOf cfg.yTolerancePx items).filterMap (fun b =>
    let parts := b.parts.insertionSort xLE
    let clean := jsTrim (collapseAllWs (composeParts cfg.gapXThresholdPx parts))
    if clean.isEmpty then none
    else some { text := clean, page := page,
                x := (parts.head?.map (fun p => p.x)).getD 0, y := b.y })

/-- percentile from questionDetector.ts. -/
def percentile (values : List ℚ) (p : ℚ) : ℚ :=
  if values.isEmpty then 0
  else
    let arr := values.insertionSort (· ≤ ·)
    let idx : Int := min ((values.length : Int) - 1) (max 0 ⌊p / 100 * values.length⌋)
    (arr.getD idx.toNat 0)

/-- isHeaderFooter from questionDetector.ts. -/
def isHeaderFooter (y pageMinY pageMaxY percent : ℚ) : Option Bool :=
  let span := max 1 (pageMaxY - pageMinY)
  let headerY := pageMaxY - percent / 100 * span
  let footerY := pageMinY + percent / 100 * span
  if headerY ≤ y then some true
  else if y ≤ footerY then some false
  else none

end ET

namespace ET

/-! ## questionDetector.ts: heading regular expressions -/

/-- Heading word alternatives of questionDetector.ts in source order
(fraga with and without the diacritic, and a bare q only at a word
boundary).  Returns the rest after the word for each way it can match. -/
def qdHeadingCands (s : List Char) : List (List Char) :=
  (([['u','p','p','g','i','f','t'], ['p','r','o','b','l','e','m'],
     ['f','r','a','g','a'], ['f','r','å','g','a'],
     ['q','u','e','s','t','i','o','n']].filterMap (fun w => stripLitCI w s))) ++
  (match stripLitCI ['q'] s with
   | some r => if optWord r.head? then [] else [r]
   | none => []) ++
  (([['s','e','c','t','i','o','n'], ['s','e','k','t','i','o','n']].filterMap
     (fun w => stripLitCI w s)))

/-- headRe: ^\s*headingWord as a test. -/
def headReTest (t : List Char) : Bool :=
  ¬(qdHeadingCands (dropWs t)).isEmpty

/-- The lookahead \s*p(?:oang|oints)?\b used inside reMainHead. -/
def lookPoints1 (s : List Char) : Bool :=
  match dropWs s with
  | c :: rest =>
    if c.toLower = 'p' then
      (match stripLitCI ['o','a','n','g'] rest with
       | some r => !optWord r.head?
       | none => false) ||
      (match stripLitCI ['o','i','n','t','s'] rest with
       | some r => !optWord r.head?
       | none => false) ||
      !optWord rest.head?
    else false
  | [] => false

/-- The lookahead \s*p(?:oang|points)?\b used inside reInlineCombined
(note: the second alternative is the full word points after the p, and
the pattern carries no i flag, so the match is case sensitive). -/
def lookPoints2 (s : List Char) : Bool :=
  match dropWs s with
  | c :: rest =>
    if c = 'p' then
      (match stripLit ['o','a','n','g'] rest with
       | some r => !optWord r.head?
       | none => false) ||
      (match stripLit ['p','o','i','n','t','s'] rest with
       | some r => !optWord r.head?
       | none => false) ||
      !optWord rest.head?
    else false
  | [] => false

/-- reMainHead from questionDetector.ts:
^\s*(?:headingWord\s*)?([1-9]\d?)(?!\s*p(?:oang|oints)?\b)\s*([\.:\)])?
Returns the captured number and whether the optional punctuation group
matched. -/
def reMainHead (t : List Char) : Option (Nat × Bool) :=
  let s0 := dropWs t
  let cands := ((qdHeadingCands s0).map (fun r => r.drop (wsRunLen r))) ++ [s0]
  firstSome (fun r =>
    firstSome (fun cand =>
      if lookPoints1 cand.2.2 then none
      else some (cand.1,
        match (dropWs cand.2.2).head? with
        | some c => punct3 c
        | none => false)) (num19 r)) cands

/-- reInlineCombined from questionDetector.ts:
^\s*([1-9]\d?)(?!\s*p(?:oang|points)?\b)\s*([a-zA-Z])\s*[\)\.:] -/
def reInlineCombined (t : List Char) : Option (Nat × Char) :=
  firstSome (fun cand =>
    if lookPoints2 cand.2.2 then none
    else
      match dropWs cand.2.2 with
      | c :: r2 =>
        if asciiAlpha c then
          match (dropWs r2).head? with
          | some p => if punct3 p then some (cand.1, c) else none
          | none => none
        else none
      | [] => none) (num19 (dropWs t))

/-- reSubOnly from questionDetector.ts: ^\s*\(?([a-zA-Z])\)?\s*[\)\.:] -/
def reSubOnly (t : List Char) : Option Char :=
  let s0 := dropWs t
  let lparen : List (List Char) :=
    (match s0 with
     | '(' :: r => [r]
     | _ => []) ++ [s0]
  firstSome (fun r1 =>
    match r1 with
    | c :: r2 =>
      if asciiAlpha c then
        let rparen : List (List Char) :=
          (match r2 with
           | ')' :: r => [r]
           | _ => []) ++ [r2]
        firstSome (fun r3 =>
          match (dropWs r3).head? with
          | some p => if punct3 p then some c else none
          | none => none) rparen
      else none
    | [] => none) lparen

/-- reSubRange from questionDetector.ts:
deluppgift(?:er)?[^a-zA-Z]{0,10}([a-zA-Z])\s*[\-–—]\s*([a-zA-Z]) -/
def subRangeAt (s : List Char) : Option (Char × Char) :=
  match stripLitCI ['d','e','l','u','p','p','g','i','f','t'] s with
  | some r1 =>
    let tailFrom := fun (r : List Char) =>
      let run := (r.takeWhile (fun c => !asciiAlpha c)).length
      if run ≤ 10 then
        match r.drop run with
        | a :: r2 =>
          if asciiAlpha a then
            match r2.drop (wsRunLen r2) with
            | d :: r3 =>
              if dashCharEach d then
                (match r3.drop (wsRunLen r3) with
                 | b :: _ => if asciiAlpha b then some (a, b) else none
                 | [] => none)
              else none
            | [] => none
          else none
        | [] => none
      else none
    (match stripLitCI ['e','r'] r1 with
     | some r1' =>
       match tailFrom r1' with
       | some ab => some ab
       | none => tailFrom r1
     | none => tailFrom r1)
  | none => none

def reSubRange (s : List Char) : Option (Char × Char) :=
  searchPos (fun _ t => subRangeAt t) none s

/-- reContext from questionDetector.ts: any of the context keywords as a
plain substring, case-insensitively (poa?ng covers pong and poang;
diacritic branches are kept although the input is already normalised). -/
def contextWords : List (List Char) :=
  [['p','o','n','g'], ['p','o','a','n','g'], ['p','o','i','n','t','s'],
   ['t','a','s','k'], ['s','c','e','n','a','r','i','o'], ['s','v','a','r','a'],
   ['b','e','s','k','r','i','v'], ['m','o','t','i','v','e','r','a'],
   ['f','ö','r','k','l','a','r','a'], ['f','o','r','k','l','a','r','a'],
   ['d','e','f','i','n','i','e','r','a'], ['b','e','v','i','s','a'],
   ['v','i','s','a'], ['b','e','r','a','k','n','a'], ['b','e','r','ä','k','n','a']]

def reContext (s : List Char) : Bool :=
  (searchPos (fun _ t =>
    if contextWords.any (fun w => (stripLitCI w t).isSome) then some () else none)
    none s).isSome

/-- One-or-more-digit run with the trailing word boundary:
\d+\b holds exactly when the maximal run is non-empty and is followed by
a non word character or the end. -/
def digitsThenB (s : List Char) : Option (List Char) :=
  match digitsMany s with
  | some (_, r) => if optWord r.head? then none else some r
  | none => none

def dateSep (c : Char) : Bool := c = '.' || c = '/' || c = '-'

/-- reDateTime from questionDetector.ts, tried at one position (the
caller checks the leading word boundary):
\d{4}-\d{2}-\d{2} | \d{1,2}[\.\/\-]\d{1,2}[\.\/\-]\d{2,4} |
\d{1,2}:\d{2} | (?:[01]\d|2[0-3])\d{2}, all with a trailing \b. -/
def dateTimeAt (s : List Char) : Bool :=
  let exactDigits := fun (k : Nat) (r : List Char) =>
    if (r.take k).length = k ∧ (r.take k).all asciiDigit then some (r.drop k) else none
  let alt1 :=
    match exactDigits 4 s with
    | some ('-' :: r1) =>
      (match exactDigits 2 r1 with
       | some ('-' :: r2) =>
         (match exactDigits 2 r2 with
          | some r3 => !optWord r3.head?
          | none => false)
       | _ => false)
    | _ => false
  let d12 := fun (r : List Char) =>
    match r with
    | c1 :: c2 :: rest =>
      if asciiDigit c1 && asciiDigit c2 then [(2, rest), (1, c2 :: rest)]
      else if asciiDigit c1 then [(1, c2 :: rest)] else []
    | [c1] => if asciiDigit c1 then [(1, ([] : List Char))] else []
    | [] => []
  let d24 := fun (r : List Char) =>
    let run := (r.takeWhile asciiDigit).length
    (List.range (run + 1)).reverse.filterMap (fun k =>
      if 2 ≤ k ∧ k ≤ 4 then some (r.drop k) else none)
  let alt2 :=
    ((d12 s).any (fun c1 =>
      match c1.2 with
      | sep1 :: r1 =>
        dateSep sep1 &&
        ((d12 r1).any (fun c2 =>
          match c2.2 with
          | sep2 :: r2 =>
            dateSep sep2 && ((d24 r2).any (fun r3 => !optWord r3.head?))
          | [] => false))
      | [] => false))
  let alt3 :=
    (d12 s).any (fun c1 =>
      match c1.2 with
      | ':' :: r1 =>
        (match exactDigits 2 r1 with
         | some r2 => !optWord r2.head?
         | none => false)
      | _ => false)
  let alt4 :=
    match s with
    | c1 :: c2 :: rest =>
      (((c1 = '0' || c1 = '1') && asciiDigit c2) ||
       (c1 = '2' && ('0' ≤ c2 && c2 ≤ '3'))) &&
      (match exactDigits 2 rest with
       | some r3 => !optWord r3.head?
       | none => false)
    | _ => false
  alt1 || alt2 || alt3 || alt4

def reDateTime (s : List Char) : Bool :=
  (searchPos (fun prev t =>
    if !optWord prev ∧ (dateTimeAt t) then some () else none) none s).isSome

/-- reNumericRange from questionDetector.ts: \b\d+\s*[-–—]\s*\d+\b. -/
def reNumericRange (s : List Char) : Bool :=
  (searchPos (fun prev t =>
    if optWord prev then none
    else
      match digitsMany t with
      | some (_, r1) =>
        (match (dropWs r1) with
         | d :: r2 =>
           if dashCharEach d then
             (match digitsThenB (dropWs r2) with
              | some _ => some ()
              | none => none)
           else none
         | [] => none)
      | none => none) none s).isSome

/-- rePageIndicator from questionDetector.ts:
\b(?:sida|page)\b(?:\s*\d+(?:\s*(?:av|of)\s*\d+)?)? — since everything
after the word is optional, the test holds exactly when sida or page
occurs as a whole word. -/
def rePageIndicator (s : List Char) : Bool :=
  (searchPos (fun prev t =>
    if optWord prev then none
    else if [['s','i','d','a'], ['p','a','g','e']].any (fun w =>
        match stripLitCI w t with
        | some r => !optWord r.head?
        | none => false) then some ()
    else none) none s).isSome

/-- poa?ng: po, optional a, ng, greedy. -/
def stripPoang (s : List Char) : Option (List Char) :=
  match stripLitCI ['p','o','a','n','g'] s with
  | some r => some r
  | none => stripLitCI ['p','o','n','g'] s

/-- reScoreSummary from questionDetector.ts:
\b(?:max\s*poa?ng|betyg\s*\d|betyg\b|total(?:\s*poa?ng|\s*points)?|points?)\b -/
def scoreSummaryAt (s : List Char) : Bool :=
  let altMax :=
    match stripLitCI ['m','a','x'] s with
    | some r =>
      (match stripPoang (dropWs r) with
       | some r2 => !optWord r2.head?
       | none => false)
    | none => false
  let altBetygD :=
    match stripLitCI ['b','e','t','y','g'] s with
    | some r =>
      (match dropWs r with
       | c :: r2 => asciiDigit c && !optWord r2.head?
       | [] => false)
    | none => false
  let altBetyg :=
    match stripLitCI ['b','e','t','y','g'] s with
    | some r => !optWord r.head?
    | none => false
  let altTotal :=
    match stripLitCI ['t','o','t','a','l'] s with
    | some r =>
      (match stripPoang (dropWs r) with
       | some r2 => !optWord r2.head?
       | none => false) ||
      (match stripLitCI ['p','o','i','n','t','s'] (dropWs r) with
       | some r2 => !optWord r2.head?
       | none => false) ||
      !optWord r.head?
    | none => false
  let altPoints :=
    (match stripLitCI ['p','o','i','n','t','s'] s with
     | some r => !optWord r.head?
     | none => false) ||
    (match stripLitCI ['p','o','i','n','t'] s with
     | some r => !optWord r.head?
     | none => false)
  altMax || altBetygD || altBetyg || altTotal || altPoints

def reScoreSummary (s : List Char) : Bool :=
  (searchPos (fun prev t =>
    if !optWord prev ∧ scoreSummaryAt t then some () else none) none s).isSome

/-- reNumFollowedByPoints from questionDetector.ts:
^\s*(?:headingWord\s*)?([1-9]\d?)\s?(?: )?(?:p(?:[\)\.]|\b)|poa?ng\b|points\b) -/
def reNumFollowedByPoints (t : List Char) : Option Nat :=
  let s0 := dropWs t
  let cands := ((qdHeadingCands s0).map (fun r => r.drop (wsRunLen r))) ++ [s0]
  let tailChk := fun (r : List Char) =>
    (match r with
     | c :: r5 =>
       (c.toLower = 'p' &&
         ((match r5.head? with
           | some d => d = ')' || d = '.'
           | none => false) ||
          !optWord r5.head?)) ||
       (match stripPoang r with
        | some r6 => !optWord r6.head?
        | none => false) ||
       (match stripLitCI ['p','o','i','n','t','s'] r with
        | some r6 => !optWord r6.head?
        | none => false)
     | [] => false)
  firstSome (fun r =>
    firstSome (fun cand =>
      let afterNum := cand.2.2
      let wsOpts : List (List Char) :=
        (match afterNum with
         | c :: rest => if jsWs c then [rest, afterNum] else [afterNum]
         | [] => [afterNum])
      firstSome (fun r3 =>
        let nbOpts : List (List Char) :=
          (match r3 with
           | c :: rest => if c = Char.ofNat 160 then [rest, r3] else [r3]
           | [] => [r3])
        firstSome (fun r4 => if tailChk r4 then some cand.1 else none) nbOpts)
        wsOpts) (num19 r)) cands

/-- reMultiNumbersRow from questionDetector.ts:
(?:\b\d+(?:[\.,]\d+)?\b[\s,;:]{1,3}){3,}\d+ -/
def multiSep (c : Char) : Bool := jsWs c || c = ',' || c = ';' || c = ':'

/-- One repetition of the multi number unit: a number (with optional
decimal part and trailing boundary) plus one to three separators.
Returns the rest when the unit matches at a digit position whose
preceding character is non word. -/
def multiUnit (s : List Char) : Option (List Char) :=
  match digitsMany s with
  | some (_, r1) =>
    let afterNum : Option (List Char) :=
      (match r1 with
       | c :: r2 =>
         if (c = '.' || c = ',') then
           match digitsThenB r2 with
           | some r3 => some r3
           | none => if optWord r1.head? then none else some r1
         else if optWord r1.head? then none else some r1
       | [] => some r1)
    match afterNum with
    | some r3 =>
      let run := (r3.takeWhile multiSep).length
      if 1 ≤ run then some (r3.drop (min 3 run)) else none
    | none => none
  | none => none

def multiCount : Nat → List Char → Nat × List Char
  | 0, s => (0, s)
  | fuel + 1, s =>
    match multiUnit s with
    | some r => let p := multiCount fuel r; (p.1 + 1, p.2)
    | none => (0, s)

def multiNumAt (s : List Char) : Bool :=
  let p := multiCount s.length s
  3 < p.1 || (p.1 = 3 && (match p.2.head? with
                          | some c => asciiDigit c
                          | none => false))

def reMultiNumbersRow (s : List Char) : Bool :=
  (searchPos (fun prev t =>
    if !optWord prev ∧ multiNumAt t then some () else none) none s).isSome

/-- reSectionHeading from questionDetector.ts:
^\s*(?:sektion|section)\s+\d+[a-z]?\b (case-insensitive). -/
def reSectionHeading (t : List Char) : Bool :=
  let s0 := dropWs t
  let afterWord :=
    match stripLitCI ['s','e','k','t','i','o','n'] s0 with
    | some r => some r
    | none => stripLitCI ['s','e','c','t','i','o','n'] s0
  match afterWord with
  | some r =>
    let w := wsRunLen r
    if w = 0 then false
    else
      match digitsMany (r.drop w) with
      | some (_, r2) =>
        (match r2 with
         | c :: r3 => if asciiAlpha c then !optWord r3.head? || !optWord r2.head?
                      else !optWord r2.head?
         | [] => true)
      | none => false
  | none => false

end ET

namespace ET

/-! ## questionDetector.ts: detection state and per line step -/

structure DState where
  tokens : List Token := []
  lastMain : Nat := 0
  lastMainPage : Int := 0
  anyMainAccepted : Bool := false
  lastSectionPage : Int := -1
deriving DecidableEq, Repr

def DState.hasToken (st : DState) (tok : String) : Bool :=
  st.tokens.any (fun t => t.token = tok)

def DState.push (st : DState) (t : Token) : DState :=
  { st with tokens := st.tokens ++ [t] }

/-- In debug mode a duplicate key appends position evidence to the token
that holds the key (there is at most one). -/
def DState.appendPos (st : DState) (tok : String) (pos : Int × ℚ × ℚ) : DState :=
  { st with tokens := st.tokens.map (fun t =>
      if t.token = tok then { t with positions := t.positions ++ [pos] } else t) }

/-- confFromScore: (s - thr) / max(1, 10 - thr), clamped to [0, 1]. -/
def confFromScore (thr : Int) (s : Int) : ℚ :=
  max 0 (min 1 (((s : ℚ) - (thr : ℚ)) / max 1 ((10 : ℚ) - (thr : ℚ))))

/-- One iteration of the line loop of detectQuestionsFromPages; this is a
direct translation of the body of the while loop, with the candidate
match, the additive score signals, the exclusions, the sequence
heuristics, acceptance, sub binding and sub range expansion in source
order. -/
def qdStep (conf : DetectorConfig) (xThreshold minY maxY : ℚ) (page : Int)
    (ln : Line) (nextText : List Char) (st : DState) : DState :=
  let t := normalizeTextKeepLines ln.text
  let headerFoot := isHeaderFooter ln.y minY maxY conf.headerFooterPercent
  let nearby := (t ++ ' ' :: nextText).take (conf.contextWindow + 40)
  let m := reMainHead t
  let score0 : Int :=
    match m with
    | some nb =>
      (if headReTest t then 3 else 0) + (if nb.2 then 2 else 0)
    | none => 0
  let ex1 : Bool :=
    match m with
    | some nb =>
      (match reNumFollowedByPoints t with
       | some fp => fp = nb.1
       | none => false)
    | none => false
  let inline := if m.isSome then none else reInlineCombined t
  let score1 : Int := score0 + (match inline with | some _ => 2 | none => 0)
  let ex2 : Bool :=
    match inline with
    | some nc =>
      (match reNumFollowedByPoints t with
       | some fp => fp = nc.1
       | none => false)
    | none => false
  let mainNum : Option Nat :=
    match m with
    | some nb => some nb.1
    | none => inline.map (fun nc => nc.1)
  let subOnly : Option Char :=
    if m.isSome || inline.isSome then none else reSubOnly t
  let isSubOnly := subOnly.isSome
  let subLetter : Option Char :=
    match inline with
    | some nc => some nc.2.toLower
    | none => subOnly.map Char.toLower
  let score2 : Int := score1 +
    (if mainNum.isSome && decide (ln.x ≤ xThreshold) then 2 else 0) +
    (if mainNum.isSome && reContext nearby then 1 else 0)
  let sectionReset : Bool := reSectionHeading t && decide (ln.x ≤ xThreshold)
  let lastMain1 : Nat := if sectionReset then 0 else st.lastMain
  let lastSectionPage1 : Int := if sectionReset then page else st.lastSectionPage
  let ex3 := sectionReset
  let score3 : Int := score2 +
    (if reDateTime t || reNumericRange t then -3 else 0) +
    (if reMultiNumbersRow t then -2 else 0) +
    (if headerFoot.isSome then -2 else 0)
  let ex4 := rePageIndicator t
  let ex5 := reScoreSummary t
  let score : Int := score3 +
    (match mainNum with
     | some n =>
       if 0 < lastMain1 then
         (if n = lastMain1 + 1 then 2
          else if n = lastMain1 then 1
          else if n = lastMain1 + 2 then 0
          else if (n : Int) < (lastMain1 : Int) - 1 ∧ page > st.lastMainPage + 1 ∧
                  ¬(lastSectionPage1 ≥ st.lastMainPage) then -2
          else 0)
       else
         (if 5 < n ∧ page ≤ 2 then -3 else 0) + (if 15 ≤ n then -2 else 0)
     | none => 0)
  let excluded := ex1 || ex2 || ex3 || ex4 || ex5
  let conf01 := confFromScore conf.scoreThreshold score
  let acceptedMain := !excluded && mainNum.isSome && decide (conf.scoreThreshold ≤ score)
  let st1 :=
    { st with lastMain := lastMain1, lastSectionPage := lastSectionPage1 }
  let st2 :=
    if acceptedMain then
      match mainNum with
      | some n =>
        let tok := toString n
        let stP :=
          if st1.hasToken tok then
            (if conf.debug then st1.appendPos tok (page, ln.x, ln.y) else st1)
          else st1.push { token := tok, kind := .main, page := page,
                          x := ln.x, y := ln.y, confidence := conf01 }
        { stP with lastMain := max stP.lastMain n, lastMainPage := page,
                   anyMainAccepted := true }
      | none => st1
    else st1
  let st3 :=
    match subLetter with
    | some L =>
      if acceptedMain || (!isSubOnly && st2.anyMainAccepted) || decide (0 < st2.lastMain) then
        let parent : String :=
          if acceptedMain then toString (mainNum.getD 0)
          else if 0 < st2.lastMain then toString st2.lastMain
          else match mainNum with
               | some n => toString n
               | none => ""
        if parent = "" then st2
        else
          let tok := parent ++ String.singleton L
          if st2.hasToken tok then
            (if conf.debug then st2.appendPos tok (page, ln.x, ln.y) else st2)
          else st2.push { token := tok, kind := .sub, parent := some parent,
                          page := page, x := ln.x, y := ln.y, confidence := conf01 }
      else st2
    | none => st2
  if acceptedMain then
    match mainNum with
    | some n =>
      (match reSubRange nearby with
       | some ab =>
         (letterRange ab.1 ab.2).foldl (fun s L =>
           let tok := toString n ++ String.singleton L
           if s.hasToken tok then s
           else s.push { token := tok, kind := .sub, parent := some (toString n),
                         page := page, x := ln.x, y := ln.y,
                         confidence := conf01 }) st3
       | none => st3)
    | none => st3
  else st3

def qdLineLoop (conf : DetectorConfig) (xThreshold minY maxY : ℚ) (page : Int) :
    DState → List Line → DState
  | st, [] => st
  | st, ln :: rest =>
    let nextText :=
      match rest.head? with
      | some l2 => normalizeTextKeepLines l2.text
      | none => []
    qdLineLoop conf xThreshold minY maxY page
      (qdStep conf xThreshold minY maxY page ln nextText st) rest

/-! ## questionDetector.ts: page loop and the final ordering -/

def mapSetLines (m : List (Int × List Line)) (k : Int) (v : List Line) :
    List (Int × List Line) :=
  if (m.find? (fun e => e.1 = k)).isSome then
    m.map (fun e => if e.1 = k then (k, v) else e)
  else m ++ [(k, v)]

def linesMapOf (conf : DetectorConfig) (pages : List PageInput) :
    List (Int × List Line) :=
  pages.foldl (fun m pi => mapSetLines m pi.page (buildLinesFromItems pi.items pi.page conf)) []

def allXsOf (conf : DetectorConfig) (pages : List PageInput) : List ℚ :=
  pages.foldl (fun acc pi =>
    acc ++ (buildLinesFromItems pi.items pi.page conf).map (fun l => l.x)) []

def maxYOf : List Line → ℚ
  | [] => 0
  | l :: ls => (ls.map (fun x => x.y)).foldl max l.y

def qdPage (conf : DetectorConfig) (xThreshold : ℚ)
    (linesMap : List (Int × List Line)) (st : DState) (pi : PageInput) : DState :=
  let lines := (((linesMap.find? (fun e => e.1 = pi.page)).map (fun e => e.2)).getD [])
  if pi.items.isEmpty || lines.isEmpty then st
  else
    let minY : ℚ := 0
    let maxY : ℚ :=
      match pi.height with
      | some h => h
      | none => maxYOf lines
    qdLineLoop conf xThreshold minY maxY pi.page st lines

/-- Document order of tokens: page ascending, then y descending, then x
ascending. -/
def tokLE (a b : Token) : Prop :=
  a.page < b.page ∨ (a.page = b.page ∧ (b.y < a.y ∨ (a.y = b.y ∧ a.x ≤ b.x)))

instance : DecidableRel tokLE := fun a b => by
  unfold tokLE; infer_instance

structure DetectResult where
  tokens : List Token
deriving DecidableEq, Repr

/-- detectQuestionsFromPages from questionDetector.ts (the debug trace is
not modelled; in debug mode duplicate positions are still appended to the
tokens, as in the source). -/
def detectQuestionsFromPages (pages : List PageInput)
    (cfg : DetectorConfig := defaultConfig) : DetectResult :=
  let linesMap := linesMapOf cfg pages
  let xThresholdGlobal := percentile (allXsOf cfg pages) cfg.leftMarginPercentile
  let st := pages.foldl (qdPage cfg xThresholdGlobal linesMap) {}
  { tokens := st.tokens.insertionSort tokLE }

end ET

namespace ET

/-! ## pdfServer.ts: buildLinesFromItems (page text variant) -/

/-- buildLinesFromItems from pdfServer.ts: same grouping as the detector
variant but with a gap threshold of three pixels and an output of text
and page only. -/
def buildLinesFromItemsPS (items : List PdfTextItem) (page : Int) : List LineP :=
  (bucketsOf 3 items).filterMap (fun b =>
    let parts := b.parts.insertionSort xLE
    let clean := jsTrim (collapseAllWs (composeParts 3 parts))
    if clean.isEmpty then none
    else some { text := clean, page := page })

/-! ## pdfServer.ts: filterHeaderFooterLines -/

def byPageOf (lines : List LineP) : List (Int × List LineP) :=
  lines.foldl (fun m ln =>
    if (m.find? (fun e => e.1 = ln.page)).isSome then
      m.map (fun e => if e.1 = ln.page then (e.1, e.2 ++ [ln]) else e)
    else m ++ [(ln.page, [ln])]) []

/-- Occurrences of a text in the top three slots across all pages
(the source accumulates the same counts in a map). -/
def topCountOf (byPage : List (Int × List LineP)) (txt : List Char) : Nat :=
  (byPage.map (fun e => ((e.2.take 3).filter (fun l => l.text = txt)).length)).sum

/-- Occurrences of a text in the bottom three slots across all pages. -/
def bottomCountOf (byPage : List (Int × List LineP)) (txt : List Char) : Nat :=
  (byPage.map (fun e =>
    ((e.2.drop (e.2.length - 3)).filter (fun l => l.text = txt)).length)).sum

/-- Math.max(2, Math.floor(0.6 * Math.max(1, totalPages))). -/
def hfThreshold (totalPages : Nat) : Nat := max 2 (3 * max 1 totalPages / 5)

def linePageLE (a b : LineP) : Prop := a.page ≤ b.page

instance : DecidableRel linePageLE := fun a b => by
  unfold linePageLE; infer_instance

/-- The survivors of one page array: a slot is dropped when it is a top
slot with a common top text or a bottom slot with a common bottom text. -/
def hfKeep (byPage : List (Int × List LineP)) (thr : Nat) (arr : List LineP) :
    List LineP :=
  (List.range arr.length).filterMap (fun i =>
    match arr.get? i with
    | some ln =>
      let isTop := i < 3 && decide (thr ≤ topCountOf byPage ln.text)
      let isBot := decide (arr.length ≤ i + 3) &&
                   decide (thr ≤ bottomCountOf byPage ln.text)
      if isTop || isBot then none else some ln
    | none => none)

/-- filterHeaderFooterLines from pdfServer.ts: drop a line occupying a top
or bottom slot of its page when its text reaches the common threshold in
that band, then stably sort the survivors by page. -/
def filterHeaderFooterLines (lines : List LineP) (totalPages : Nat) : List LineP :=
  let byPage := byPageOf lines
  let thr := hfThreshold totalPages
  let out := byPage.foldl (fun acc e => acc ++ hfKeep byPage thr e.2) []
  out.insertionSort linePageLE

/-! ## pdfServer.ts: repairCommonMisencoding -/

/-- Replace every occurrence of a literal, left to right (the source uses
split and join). -/
def replaceAllGo : Nat → List Char → List Char → List Char → List Char
  | 0, _, _, s => s
  | _ + 1, _, _, [] => []
  | fuel + 1, bad, good, c :: rest =>
    match stripLit bad (c :: rest) with
    | some r => good ++ replaceAllGo fuel bad good r
    | none => c :: replaceAllGo fuel bad good rest

def replaceAll (bad good s : List Char) : List Char :=
  if bad.isEmpty then s else replaceAllGo (s.length + 1) bad good s

/-- The mojibake replacement table of repairCommonMisencoding. -/
def repairTable : List (List Char × List Char) :=
  [("Ã¥".toList, "å".toList), ("Ã„".toList, "Ä".toList), ("Ã¤".toList, "ä".toList),
   ("Ã…".toList, "Å".toList), ("Ã–".toList, "Ö".toList), ("Ã¶".toList, "ö".toList),
   ("Â ".toList, "".toList), ("Â·".toList, "·".toList), ("Â–".toList, "–".toList),
   ("Â—".toList, "—".toList), ("Â©".toList, "©".toList), ("Â®".toList, "®".toList),
   ("Â°".toList, "°".toList)]

/-- One detached diacritic pass, e.g. a diaeresis followed by optional
whitespace and a or A becomes the composed letter. -/
def detachedPassGo (isMarker : Char → Bool) (lo hi outLo outHi : Char) :
    Nat → List Char → List Char
  | 0, s => s
  | _ + 1, [] => []
  | fuel + 1, c :: rest =>
    if isMarker c then
      let r := dropWs rest
      match r with
      | d :: r2 =>
        if d = lo then outLo :: detachedPassGo isMarker lo hi outLo outHi fuel r2
        else if d = hi then outHi :: detachedPassGo isMarker lo hi outLo outHi fuel r2
        else c :: detachedPassGo isMarker lo hi outLo outHi fuel rest
      | [] => c :: detachedPassGo isMarker lo hi outLo outHi fuel rest
    else c :: detachedPassGo isMarker lo hi outLo outHi fuel rest

def detachedPass (isMarker : Char → Bool) (lo hi outLo outHi : Char)
    (s : List Char) : List Char :=
  detachedPassGo isMarker lo hi outLo outHi (s.length + 1) s

/-- repairCommonMisencoding from pdfServer.ts (the NFC renormalisation is
the identity on the composed characters of this model). -/
def repairCommonMisencoding (s : List Char) : List Char :=
  let s := repairTable.foldl (fun acc e => replaceAll e.1 e.2 acc) s
  let s := detachedPass (fun c => c = Char.ofNat 0xA8) 'a' 'A' 'ä' 'Ä' s
  let s := detachedPass (fun c => c = Char.ofNat 0xA8) 'o' 'O' 'ö' 'Ö' s
  let s := detachedPass (fun c => c = Char.ofNat 0x2DA || c = Char.ofNat 0xB0)
             'a' 'A' 'å' 'Å' s
  collapseTabSpace s

end ET

namespace ET

/-! ## pdfServer.ts: parsePdf pipeline -/

/-- fileName.match(/20(\d{2})/): parseInt("20" ++ capture). -/
def yearMatch (s : List Char) : Option Int :=
  searchPos (fun _ t =>
    match stripLit ['2','0'] t with
    | some (a :: b :: _) =>
      if asciiDigit a && asciiDigit b then
        some ((2000 : Int) + 10 * digitVal a + digitVal b)
      else none
    | _ => none) none s

def takeDigitsN (k : Nat) (s : List Char) : Option (Nat × List Char) :=
  if (s.take k).length = k ∧ (s.take k).all asciiDigit then
    some ((s.take k).foldl (fun a c => 10 * a + digitVal c) 0, s.drop k)
  else none

/-- fileName.match(/(\d{4})-(\d{2})-(\d{2})/), and the Date constructor
argument triple (year, month - 1, day). -/
def dateMatch (s : List Char) : Option (Int × Int × Int) :=
  searchPos (fun _ t =>
    match takeDigitsN 4 t with
    | some (y, '-' :: r1) =>
      (match takeDigitsN 2 r1 with
       | some (m, '-' :: r2) =>
         (match takeDigitsN 2 r2 with
          | some (d, _) => some ((y : Int), (m : Int) - 1, (d : Int))
          | none => none)
       | _ => none)
    | _ => none) none s

/-- The external course code and course name detector modules
(courseCodeDetector.ts, courseNameDetector.ts).  No claim under
verification depends on their values, so they enter the pipeline as
parameters; the claims about parsePdf are proved for every choice. -/
structure Detectors where
  codeFromFilename : List Char → Option (List Char)
  codeFromText : List Char → Option (List Char)
  courseName : List Char → List Char → Option (List Char) → Option (List Char)

/-- The oracle input of one parsePdf run: the file name, the pdf.js
document (loading may fail, and each page read may fail), the OCR
collaborator availability, its per page recognition output, and the deep
OCR flag. -/
structure ParseInput where
  fileName : List Char
  load : Except (List Char) (List (Except (List Char) (List PdfTextItem)))
  ocrAvailable : Bool
  ocrInitOk : Bool
  ocrChunks : List (List Char)
  deepOcr : Bool

/-- The Partial Exam record returned by parsePdf; fields that the
fallback path leaves undefined are options. -/
structure ExamResult where
  fileName : List Char
  examDate : Option (Int × Int × Int) := none
  courseName : Option (List Char) := none
  courseCode : Option (List Char) := none
  year : Option Int := none
  totalPoints : Option Nat := none
  questions : List Question := []
  extractedText : List Char := []
  tags : Option (List (List Char)) := none
deriving DecidableEq, Repr

inductive Stage where
  | lines
  | text2
  | layout
  | ocr
deriving DecidableEq, Repr

structure AcquireResult where
  questions : List Question
  textForParsing : List Char
  attempted : List Stage
  ocrPagesProcessed : Nat
deriving DecidableEq, Repr

def joinWith (sep : List Char) : List (List Char) → List Char
  | [] => []
  | [x] => x
  | x :: xs => x ++ sep ++ joinWith sep xs

/-- The textForParsing accumulator of the OCR loops:
(fullText + newline + parts.join(newline)).trim(). -/
def quickAccumText (fullText : List Char) (parts : List (List Char)) : List Char :=
  jsTrim (fullText ++ '\n' :: joinWith ['\n'] parts)

def clamp01 (q : ℚ) : ℚ := max 0 (min 1 q)

/-- Math.round, which rounds half toward positive infinity. -/
def jsRound (q : ℚ) : Int := ⌊q + 1/2⌋

/-- The question record derived from a layout detector token in the
layout fallback of parsePdf. -/
def tokenToQuestion (tk : Token) : Question :=
  { id := "q-" ++ tk.token, number := tk.token, points := 0,
    page := some tk.page,
    confidence := some (jsRound (clamp01 tk.confidence * 100)) }

/-- The quick OCR loop: accumulate recognized page text and re-run the
flat detector after every productive page, stopping at the first
non-empty token set.  Returns the detected questions, the accumulated
text and the number of pages processed. -/
def ocrQuick (fullText : List Char) :
    List (List Char) → List (List Char) → List Char → Nat →
    (List Question × List Char × Nat)
  | [], _, tfp, k => ([], tfp, k)
  | ch :: rest, parts, tfp, k =>
    if ch.isEmpty then ocrQuick fullText rest parts tfp (k + 1)
    else
      let parts' := parts ++ [ch]
      let tfp' := quickAccumText fullText parts'
      let q := extractQuestionsFromText2 tfp'
      if q.isEmpty then ocrQuick fullText rest parts' tfp' (k + 1)
      else (q, tfp', k + 1)

/-- The deep OCR loop: accumulate all pages without intermediate
detection. -/
def ocrDeep (fullText : List Char) :
    List (List Char) → List (List Char) → List Char → Nat → (List Char × Nat)
  | [], _, tfp, k => (tfp, k)
  | ch :: rest, parts, tfp, k =>
    if ch.isEmpty then ocrDeep fullText rest parts tfp (k + 1)
    else
      let parts' := parts ++ [ch]
      let tfp' := quickAccumText fullText parts'
      ocrDeep fullText rest parts' tfp' (k + 1)

/-- The question list contributed by the layout fallback: the mapped
tokens when the re-read succeeded and the detector found any. -/
def layoutQuestions (layout : Option DetectResult) : List Question :=
  match layout with
  | some det =>
    if det.tokens.isEmpty then [] else det.tokens.map tokenToQuestion
  | none => []

/-- The acquisition escalation of parsePdf: the line based stage, then
the flat regex stage, then the layout detector, then OCR; each stage is
attempted only when every earlier stage produced no questions. -/
def acquire (filtered : List LineP) (fullText : List Char)
    (layout : Option DetectResult) (ocrAvailable ocrInitOk deep : Bool)
    (chunks : List (List Char)) : AcquireResult :=
  let q1 := extractQuestionsFromLines filtered
  if ¬q1.isEmpty then
    { questions := q1, textForParsing := fullText, attempted := [.lines],
      ocrPagesProcessed := 0 }
  else
    let q2 := extractQuestionsFromText2 fullText
    if ¬q2.isEmpty then
      { questions := q2, textForParsing := fullText,
        attempted := [.lines, .text2], ocrPagesProcessed := 0 }
    else
      let q3 := layoutQuestions layout
      if ¬q3.isEmpty then
        { questions := q3, textForParsing := fullText,
          attempted := [.lines, .text2, .layout], ocrPagesProcessed := 0 }
      else if ocrAvailable && ocrInitOk then
        if deep then
          let r := ocrDeep fullText chunks [] fullText 0
          { questions := extractQuestionsFromText2 r.1, textForParsing := r.1,
            attempted := [.lines, .text2, .layout, .ocr],
            ocrPagesProcessed := r.2 }
        else
          let r := ocrQuick fullText chunks [] fullText 0
          { questions := r.1, textForParsing := r.2.1,
            attempted := [.lines, .text2, .layout, .ocr],
            ocrPagesProcessed := r.2.2 }
      else
        { questions := [], textForParsing := fullText,
          attempted := [.lines, .text2, .layout], ocrPagesProcessed := 0 }

/-- The per page text of the text layer loop of parsePdf: the pieces
joined with spaces (newline after an end-of-line item), with the join of
all raw strings as the fallback, repaired and whitespace collapsed. -/
def pageTextOf (items : List PdfTextItem) : List Char :=
  let buf := items.foldl (fun b it =>
    if it.str.isEmpty then b
    else (if b.isEmpty then b ++ it.str else b ++ ' ' :: it.str) ++
         (if it.hasEOL then ['\n'] else [])) []
  let rawPage := if buf.isEmpty then joinWith [' '] (items.map (fun it => it.str))
                 else buf
  collapseTabSpace (repairCommonMisencoding rawPage)

/-- The full text accumulated over the pages with non-empty item lists. -/
def fullTextOf (contents : List (List PdfTextItem)) : List Char :=
  contents.foldl (fun fT items =>
    if items.isEmpty then fT
    else if fT.isEmpty then pageTextOf items
    else fT ++ '\n' :: pageTextOf items) []

/-- The structured lines accumulated over the pages with non-empty item
lists (pages are numbered from one). -/
def structuredLinesOf (contents : List (List PdfTextItem)) : List LineP :=
  (contents.enum).foldl (fun acc p =>
    if p.2.isEmpty then acc
    else acc ++ buildLinesFromItemsPS p.2 (Int.ofNat p.1 + 1)) []

/-- The final clean-up parsePdf applies to a detected course name (the
result of this computation is then discarded by the source, which
returns a hard coded string instead). -/
def courseNameCleanup (cn : List Char) : Option (List Char) :=
  let cleaned := jsTrim (normalizeDiacritics cn)
  let headingInline :=
    (searchPos (fun _ t =>
      if [['s','e','k','t','i','o','n'], ['s','e','c','t','i','o','n'],
          ['u','p','p','g','i','f','t'], ['p','r','o','b','l','e','m'],
          ['f','r','a','g','a'], ['q','u','e','s','t','i','o','n']].any (fun w =>
          match stripLitCI w t with
          | some r => (match (dropWs r) with
                       | c :: _ => asciiDigit c
                       | [] => false)
          | none => false) then some () else none) none cleaned).isSome
  let isBad := headingInline || (match dropWs cleaned with
                                 | c :: _ => asciiDigit c
                                 | [] => false)
  let stripClass := fun (c : Char) =>
    c = '-' || c = Char.ofNat 0x2013 || c = Char.ofNat 0x2014 || c = ':' ||
    c = ',' || c = '.' || jsWs c
  let compact0 := ((cleaned.dropWhile stripClass).reverse.dropWhile stripClass).reverse
  let fold2 := compact0.foldr (fun c (acc : List Char × List Char) =>
    if jsWs c then (acc.1, c :: acc.2)
    else (c :: ((if 2 ≤ acc.2.length then [' '] else acc.2) ++ acc.1), [])) ([], [])
  let compact := (if 2 ≤ fold2.2.length then [' '] else fold2.2) ++ fold2.1
  if isBad then none else some compact

/-- The question dedup of parsePdf: keep the first record for every
number. -/
def dedupQuestions (qs : List Question) : List Question :=
  (qs.foldl (fun (acc : List Question × List String) q =>
    let key := q.number
    if acc.2.contains key then acc
    else (acc.1 ++ [q], acc.2 ++ [key])) ([], [])).1

/-- The body of parsePdf inside the try block.  Failures of the document
load or of a page read in the text layer loop propagate as errors (they
are caught by the top level catch); the layout fallback and the OCR
stage swallow their own failures as in the source. -/
def parsePdfInner (dets : Detectors) (input : ParseInput) :
    Except (List Char) ExamResult := do
  let pages ← input.load
  let maxPages := if pages.length = 0 then 1 else pages.length
  let contents ← (List.range maxPages).mapM (fun i =>
    pages.getD i (.error "missing page".toList))
  let fullText := fullTextOf contents
  let structuredLines := structuredLinesOf contents
  let structuredLinesFiltered := filterHeaderFooterLines structuredLines maxPages
  let maxDetPages := min maxPages 10
  let layout : Option DetectResult :=
    if ((List.range maxDetPages).map (fun i => pages.getD i (.error [])))
        |>.all (fun e => e.isOk) then
      some (detectQuestionsFromPages ((List.range maxDetPages).map (fun i =>
        { page := Int.ofNat i + 1,
          items := (pages.getD i (.error [])).toOption.getD [] })))
    else none
  let ocrPages := min maxPages (if input.deepOcr then 100 else 20)
  let chunks := (List.range ocrPages).map (fun i => input.ocrChunks.getD i [])
  let acq := acquire structuredLinesFiltered fullText layout
    input.ocrAvailable input.ocrInitOk input.deepOcr chunks
  let textForParsing := acq.textForParsing
  let courseCode0 := dets.codeFromFilename input.fileName
  let courseCode :=
    match courseCode0 with
    | some c => some c
    | none => if textForParsing.isEmpty then none else dets.codeFromText textForParsing
  let courseNameDetected :=
    if ¬textForParsing.isEmpty ∨ ¬input.fileName.isEmpty then
      dets.courseName textForParsing input.fileName courseCode
    else none
  let _courseNameCleaned := courseNameDetected.bind courseNameCleanup
  let questions0 :=
    if ¬acq.questions.isEmpty then acq.questions
    else extractQuestionsFromText2 textForParsing
  let questions := if questions0.isEmpty then questions0 else dedupQuestions questions0
  let totalPoints := (questions.map (fun q => q.points)).sum
  pure
    { fileName := input.fileName,
      examDate := dateMatch input.fileName,
      courseName := some "Okänt kursnamn".toList,
      courseCode := courseCode,
      year := yearMatch input.fileName,
      totalPoints := some totalPoints,
      questions := questions,
      extractedText := (collapseTabSpace (repairCommonMisencoding textForParsing)).take 5000,
      tags := some [] }

/-- The minimal result produced by the catch of parsePdf. -/
def fallbackExam (dets : Detectors) (input : ParseInput) (e : List Char) : ExamResult :=
  { fileName := input.fileName,
    examDate := dateMatch input.fileName,
    courseCode := dets.codeFromFilename input.fileName,
    year := yearMatch input.fileName,
    questions := [],
    extractedText := "Failed to extract text: ".toList ++ e }

/-- parsePdf from pdfServer.ts: the whole body runs inside a try whose
catch converts any failure into the minimal fallback record. -/
def parsePdf (dets : Detectors) (input : ParseInput) : ExamResult :=
  match parsePdfInner dets input with
  | .ok r => r
  | .error e => fallbackExam dets input e

end ET

namespace ET

/-! ## Order instances for the document order -/

instance : IsTrans Token tokLE := by
  constructor
  intro a b c hab hbc
  unfold tokLE at *
  rcases hab with h1 | ⟨e1, h1⟩
  · rcases hbc with h2 | ⟨e2, h2⟩
    · exact Or.inl (h1.trans h2)
    · exact Or.inl (e2 ▸ h1)
  · rcases hbc with h2 | ⟨e2, h2⟩
    · exact Or.inl (e1 ▸ h2)
    · refine Or.inr ⟨e1.trans e2, ?_⟩
      rcases h1 with hy1 | ⟨ey1, hx1⟩
      · rcases h2 with hy2 | ⟨ey2, hx2⟩
        · exact Or.inl (hy2.trans hy1)
        · exact Or.inl (ey2 ▸ hy1)
      · rcases h2 with hy2 | ⟨ey2, hx2⟩
        · exact Or.inl (ey1 ▸ hy2)
        · exact Or.inr ⟨ey1.trans ey2, hx1.trans hx2⟩

instance : IsTotal Token tokLE := by
  constructor
  intro a b
  unfold tokLE
  rcases lt_trichotomy a.page b.page with h | h | h
  · exact Or.inl (Or.inl h)
  · rcases lt_trichotomy b.y a.y with hy | hy | hy
    · exact Or.inl (Or.inr ⟨h, Or.inl hy⟩)
    · rcases le_total a.x b.x with hx | hx
      · exact Or.inl (Or.inr ⟨h, Or.inr ⟨hy.symm, hx⟩⟩)
      · exact Or.inr (Or.inr ⟨h.symm, Or.inr ⟨hy, hx⟩⟩)
    · exact Or.inr (Or.inr ⟨h.symm, Or.inl hy⟩)
  · exact Or.inr (Or.inl h)

end ET

namespace ET

/-! ## Fixtures for the concrete claims -/

/-- Detector modules that find nothing; used where detector behaviour is
irrelevant. -/
def noDetectors : Detectors :=
  { codeFromFilename := fun _ => none, codeFromText := fun _ => none,
    courseName := fun _ _ _ => none }

/-- Detector modules whose course name detector finds the name Algebra. -/
def algebraDetectors : Detectors :=
  { codeFromFilename := fun _ => none, codeFromText := fun _ => none,
    courseName := fun _ _ _ => some "Algebra".toList }

/-- A one page document whose text layer reads Uppgift 1. -/
def simpleDocInput : ParseInput :=
  { fileName := "exam.pdf".toList,
    load := .ok [.ok [{ str := "Uppgift 1.".toList,
                        transform := some [1, 0, 0, 1, 50, 700] }]],
    ocrAvailable := false, ocrInitOk := false, ocrChunks := [], deepOcr := false }

/-- OCR page texts for the escalation scenario: the first page carries no
question marker, the second does. -/
def c2Chunks : List (List Char) :=
  ["garbage".toList, "Uppgift 1. (2p)".toList, "Uppgift 2.".toList]

/-- A glyph run reading 3. used as a repeated page header. -/
def c5Item : PdfTextItem :=
  { str := "3.".toList, transform := some [1, 0, 0, 1, 50, 700] }

/-- A two page document whose only text is the same top line 3. on each
page. -/
def c5Input : ParseInput :=
  { fileName := "exam.pdf".toList, load := .ok [.ok [c5Item], .ok [c5Item]],
    ocrAvailable := false, ocrInitOk := false, ocrChunks := [], deepOcr := false }

/-- Well formedness of the recorded sub letter lists: each list has no
duplicate and holds only lower case ascii letters.  The extractors keep
this invariant, which bounds every sub list by 26 letters. -/
def subWF (st : QState) : Prop :=
  ∀ e ∈ st.subOrder, e.2.Nodup ∧ ∀ c ∈ e.2, 97 ≤ c.toNat ∧ c.toNat ≤ 122

def lcLetters : List Char := "abcdefghijklmnopqrstuvwxyz".toList

/-- A heading line whose sub range expands to the 26 letters a to z. -/
def c7Line (k : Nat) : LineP :=
  { text := (toString k ++ ". Deluppgift a-z 2p var").toList, page := 1 }

/-- Six lines whose sub ranges expand to 26 letters each: the sixth group
crosses the 150 token cap and still gets emitted whole. -/
def c7Lines : List LineP :=
  [c7Line 1, c7Line 2, c7Line 3, c7Line 4, c7Line 5, c7Line 6]

/-- A glyph run reading 20p at the left margin in the middle of a page of
height 1000. -/
def c6Item : PdfTextItem :=
  { str := "20p".toList, transform := some [1, 0, 0, 1, 0, 500] }

def c6Page : PageInput := { page := 1, items := [c6Item], height := some 1000 }

/-- The detector state after the 20p line: one accepted main token 2. -/
def c6S : DState :=
  { tokens := [{ token := "2", kind := .main, parent := none, page := 1,
                 x := 0, y := 500, confidence := confFromScore 2 2,
                 positions := [] }],
    lastMain := 2, lastMainPage := 1, anyMainAccepted := true,
    lastSectionPage := -1 }

/-- A main token with the given token string is present. -/
def tokMain (st : DState) (p : String) : Prop :=
  ∃ tk ∈ st.tokens, tk.kind = TokenKind.main ∧ tk.token = p

/-- The parent invariant of the detector state: every sub token names a
present main token as its parent and ends in a lower case letter, and a
positive lastMain always has its main token recorded. -/
def dsInv (st : DState) : Prop :=
  (∀ tk ∈ st.tokens, tk.kind = TokenKind.sub →
    (∃ p, tk.parent = some p ∧ tokMain st p) ∧
    (∃ (s : String) (L : Char), tk.token = s ++ String.singleton L ∧
      97 ≤ L.toNat ∧ L.toNat ≤ 122)) ∧
  (0 < st.lastMain → tokMain st (toString st.lastMain))

/-- The extractor state after the first k of the lines of c7Lines: main
numbers 1 to k, each with sub letters a to z, every token at 2 points on
page 1. -/
def c7State (k : Nat) : QState :=
  { mainOrder := (List.range k).map (fun i => i + 1),
    subOrder := (List.range k).map (fun i => (i + 1, lcLetters)),
    pointsByToken := ((List.range k).map (fun i =>
      (toString (i + 1), 2) :: lcLetters.map
        (fun c => (tokenStr (i + 1) c, 2)))).flatten,
    pageByToken := ((List.range k).map (fun i =>
      (toString (i + 1), (1 : Int)) :: lcLetters.map
        (fun c => (tokenStr (i + 1) c, (1 : Int))))).flatten }

/-- Three one-line pages of height 1000: an accepted main heading, a
section heading that resets lastMain, and a line that the case sensitive
inline pattern matches while the case insensitive main head rejects it. -/
def c9P1 : PageInput := { page := 1, items := [{ str := "Uppgift 1.".toList, transform := some [1, 0, 0, 1, 0, 700] }], height := some 1000 }

def c9P2 : PageInput := { page := 2, items := [{ str := "Sektion 2".toList, transform := some [1, 0, 0, 1, 0, 600] }], height := some 1000 }

def c9P3 : PageInput := { page := 3, items := [{ str := "7 P)".toList, transform := some [1, 0, 0, 1, 0, 500] }], height := some 1000 }

def c9Pages : List PageInput := [c9P1, c9P2, c9P3]

def c9L1 : Line := { page := 1, text := "Uppgift 1.".toList, x := 0, y := 700 }

def c9L2 : Line := { page := 2, text := "Sektion 2".toList, x := 0, y := 600 }

def c9L3 : Line := { page := 3, text := "7 P)".toList, x := 0, y := 500 }

def c9Tok1 : Token := { token := "1", kind := TokenKind.main, parent := none, page := 1, x := 0, y := 700, confidence := confFromScore 2 7, positions := [] }

/-- The orphaned sub token: parent 7, but no main token 7 is ever pushed
(the 7 P) line is excluded by the number followed by points rule, yet the
sub handling block still fires through anyMainAccepted). -/
def c9Tok2 : Token := { token := "7p", kind := TokenKind.sub, parent := some "7", page := 3, x := 0, y := 500, confidence := confFromScore 2 4, positions := [] }

def c9S1 : DState := { tokens := [c9Tok1], lastMain := 1, lastMainPage := 1, anyMainAccepted := true, lastSectionPage := -1 }

def c9S2 : DState := { tokens := [c9Tok1], lastMain := 0, lastMainPage := 1, anyMainAccepted := true, lastSectionPage := 2 }

def c9S3 : DState := { tokens := [c9Tok1, c9Tok2], lastMain := 0, lastMainPage := 1, anyMainAccepted := true, lastSectionPage := 2 }

end ET

namespace ET

/-- C3: the tokens of every detection result are sorted in document order:
page ascending, then y descending, then x ascending (the relation tokLE).
The source establishes this by the final sort of detectQuestionsFromPages. -/
theorem claim_C3_tokens_sorted (pages : List PageInput) (cfg : DetectorConfig) :
    List.Sorted tokLE (detectQuestionsFromPages pages cfg).tokens := by
  unfold detectQuestionsFromPages
  exact List.sorted_insertionSort tokLE _

/-- C4: parsePdf never propagates a failure: for every oracle input and
every choice of the detector modules, the result is either the record the
try block produced, or, when the body fails, exactly the minimal fallback
record with an empty question list and the error text inside
extractedText. -/
theorem claim_C4_never_throws (dets : Detectors) (input : ParseInput) :
    (∃ r, parsePdfInner dets input = .ok r ∧ parsePdf dets input = r) ∨
    (∃ e, parsePdfInner dets input = .error e ∧
      parsePdf dets input = fallbackExam dets input e ∧
      (fallbackExam dets input e).questions = [] ∧
      (fallbackExam dets input e).extractedText =
        "Failed to extract text: ".toList ++ e) := by
  cases h : parsePdfInner dets input with
  | ok r => exact Or.inl ⟨r, rfl, by unfold parsePdf; rw [h]⟩
  | error e => exact Or.inr ⟨e, rfl, by unfold parsePdf; rw [h], rfl, rfl⟩

/-- C8: the group distribution test: the single line Uppgift 4 (3+2+1)p,
with no prior sub letters for main four, yields the tokens 4a, 4b and 4c
with points three, two and one. -/
theorem claim_C8_group_distribution :
    extractQuestionsFromLines [⟨"Uppgift 4 (3+2+1)p".toList, 1⟩] =
      [{ id := "q-4a", number := "4a", points := 3, page := some 1 },
       { id := "q-4b", number := "4b", points := 2, page := some 1 },
       { id := "q-4c", number := "4c", points := 1, page := some 1 }] := by
  rfl

/-- C1: the success path of parsePdf always returns the hard coded course
name string, never an absent field and never the detected name: here on
the same document the result is the constant both when the course name
detector finds Algebra and when it finds nothing (the claim would require
the field to equal some Algebra in the first case and to be absent in the
second). -/
theorem claim_C1_courseName_hardcoded :
    (parsePdf algebraDetectors simpleDocInput).courseName =
        some "Okänt kursnamn".toList ∧
    (parsePdf noDetectors simpleDocInput).courseName =
        some "Okänt kursnamn".toList ∧
    some "Okänt kursnamn".toList ≠ some "Algebra".toList ∧
    (algebraDetectors.courseName
      (parsePdf algebraDetectors simpleDocInput).extractedText
      simpleDocInput.fileName none) = some "Algebra".toList := by
  refine ⟨rfl, rfl, by decide, rfl⟩

end ET

namespace ET

/-- The quick OCR loop never renders a page after a page at which the
accumulated text produced tokens: every processed page except possibly
the last one either contributed no text or left the detector empty. -/
theorem ocrQuick_stops_early (fullText : List Char) :
    ∀ (chunks parts : List (List Char)) (tfp : List Char) (k j : Nat),
      k + j + 1 < (ocrQuick fullText chunks parts tfp k).2.2 →
      (chunks.getD j []).isEmpty = true ∨
      extractQuestionsFromText2
        (quickAccumText fullText
          (parts ++ (chunks.take (j + 1)).filter (fun c => !c.isEmpty))) = [] := by
  intro chunks
  induction chunks with
  | nil =>
    intro parts tfp k j h
    simp only [ocrQuick] at h
    omega
  | cons c rest ih =>
    intro parts tfp k j h
    by_cases hc : c.isEmpty
    · rw [ocrQuick, if_pos hc] at h
      cases j with
      | zero => exact Or.inl (by simpa using hc)
      | succ j' =>
        have := ih parts tfp (k + 1) j' (by omega)
        rcases this with h1 | h1
        · exact Or.inl (by simpa using h1)
        · refine Or.inr ?_
          have hfilter :
              ((c :: rest).take (j' + 1 + 1)).filter (fun c => !c.isEmpty) =
              (rest.take (j' + 1)).filter (fun c => !c.isEmpty) := by
            simp [List.take_succ_cons, List.filter_cons, hc]
          rw [hfilter]
          exact h1
    · rw [ocrQuick, if_neg hc] at h
      by_cases hq :
          (extractQuestionsFromText2 (quickAccumText fullText (parts ++ [c]))).isEmpty
      · rw [if_pos hq] at h
        cases j with
        | zero =>
          refine Or.inr ?_
          have hfilter :
              ((c :: rest).take 1).filter (fun c => !c.isEmpty) = [c] := by
            simp [List.filter_cons, hc]
          rw [hfilter]
          exact List.isEmpty_iff.mp hq
        | succ j' =>
          have := ih (parts ++ [c]) (quickAccumText fullText (parts ++ [c]))
            (k + 1) j' (by omega)
          rcases this with h1 | h1
          · exact Or.inl (by simpa using h1)
          · refine Or.inr ?_
            have hfilter :
                ((c :: rest).take (j' + 1 + 1)).filter (fun c => !c.isEmpty) =
                c :: (rest.take (j' + 1)).filter (fun c => !c.isEmpty) := by
              simp [List.take_succ_cons, List.filter_cons, hc]
            rw [hfilter]
            rw [List.append_assoc] at h1
            exact h1
      · rw [if_neg hq] at h
        simp only at h
        omega

/-- C2: escalation order of the acquisition pipeline, and early stop of
quick OCR.  The attempted stage list is always a prefix of
lines, text2, layout, ocr; OCR is entered only when the three earlier
stages all produced nothing; and in quick mode every OCR page strictly
before the last processed one either contributed no text or left the
accumulated detection empty. -/
theorem claim_C2_escalation_order (filtered : List LineP) (fullText : List Char)
    (layout : Option DetectResult) (avail initOk deep : Bool)
    (chunks : List (List Char)) :
    ((acquire filtered fullText layout avail initOk deep chunks).attempted
        = [Stage.lines] ∨
     (acquire filtered fullText layout avail initOk deep chunks).attempted
        = [Stage.lines, Stage.text2] ∨
     (acquire filtered fullText layout avail initOk deep chunks).attempted
        = [Stage.lines, Stage.text2, Stage.layout] ∨
     (acquire filtered fullText layout avail initOk deep chunks).attempted
        = [Stage.lines, Stage.text2, Stage.layout, Stage.ocr]) ∧
    (Stage.ocr ∈ (acquire filtered fullText layout avail initOk deep chunks).attempted →
      extractQuestionsFromLines filtered = [] ∧
      extractQuestionsFromText2 fullText = [] ∧
      layoutQuestions layout = [] ∧
      (acquire filtered fullText layout avail initOk deep chunks).attempted
        = [Stage.lines, Stage.text2, Stage.layout, Stage.ocr]) ∧
    (deep = false → ∀ j,
      j + 1 < (acquire filtered fullText layout avail initOk deep chunks).ocrPagesProcessed →
      (chunks.getD j []).isEmpty = true ∨
      extractQuestionsFromText2
        (quickAccumText fullText
          ((chunks.take (j + 1)).filter (fun c => !c.isEmpty))) = []) := by
  by_cases h1 : (extractQuestionsFromLines filtered).isEmpty
  · by_cases h2 : (extractQuestionsFromText2 fullText).isEmpty
    · by_cases h3 : (layoutQuestions layout).isEmpty
      · by_cases h4 : (avail && initOk) = true
        · cases hd : deep
          · refine ⟨?_, ?_, ?_⟩
            · right; right; right
              simp [acquire, h1, h2, h3, h4, hd]
            · intro _
              exact ⟨List.isEmpty_iff.mp h1, List.isEmpty_iff.mp h2,
                List.isEmpty_iff.mp h3, by simp [acquire, h1, h2, h3, h4, hd]⟩
            · intro _ j hj
              have hcount :
                  (acquire filtered fullText layout avail initOk false chunks).ocrPagesProcessed
                    = (ocrQuick fullText chunks [] fullText 0).2.2 := by
                simp [acquire, h1, h2, h3, h4]
              rw [hcount] at hj
              have := ocrQuick_stops_early fullText chunks [] fullText 0 j (by omega)
              simpa using this
          · refine ⟨?_, ?_, ?_⟩
            · right; right; right
              simp [acquire, h1, h2, h3, h4, hd]
            · intro _
              exact ⟨List.isEmpty_iff.mp h1, List.isEmpty_iff.mp h2,
                List.isEmpty_iff.mp h3, by simp [acquire, h1, h2, h3, h4, hd]⟩
            · intro hdf
              exact absurd hdf (by simp)
        · refine ⟨?_, ?_, ?_⟩
          · right; right; left
            simp [acquire, h1, h2, h3, h4]
          · intro hmem
            have : (acquire filtered fullText layout avail initOk deep chunks).attempted
                = [Stage.lines, Stage.text2, Stage.layout] := by
              simp [acquire, h1, h2, h3, h4]
            rw [this] at hmem
            simp at hmem
          · intro _ j hj
            have : (acquire filtered fullText layout avail initOk deep chunks).ocrPagesProcessed
                = 0 := by
              simp [acquire, h1, h2, h3, h4]
            omega
      · refine ⟨?_, ?_, ?_⟩
        · right; right; left
          simp [acquire, h1, h2, h3]
        · intro hmem
          have : (acquire filtered fullText layout avail initOk deep chunks).attempted
              = [Stage.lines, Stage.text2, Stage.layout] := by
            simp [acquire, h1, h2, h3]
          rw [this] at hmem
          simp at hmem
        · intro _ j hj
          have : (acquire filtered fullText layout avail initOk deep chunks).ocrPagesProcessed
              = 0 := by
            simp [acquire, h1, h2, h3]
          omega
    · refine ⟨?_, ?_, ?_⟩
      · right; left
        simp [acquire, h1, h2]
      · intro hmem
        have : (acquire filtered fullText layout avail initOk deep chunks).attempted
            = [Stage.lines, Stage.text2] := by
          simp [acquire, h1, h2]
        rw [this] at hmem
        simp at hmem
      · intro _ j hj
        have : (acquire filtered fullText layout avail initOk deep chunks).ocrPagesProcessed
            = 0 := by
          simp [acquire, h1, h2]
        omega
  · refine ⟨?_, ?_, ?_⟩
    · left
      simp [acquire, h1]
    · intro hmem
      have : (acquire filtered fullText layout avail initOk deep chunks).attempted
          = [Stage.lines] := by
        simp [acquire, h1]
      rw [this] at hmem
      simp at hmem
    · intro _ j hj
      have : (acquire filtered fullText layout avail initOk deep chunks).ocrPagesProcessed
          = 0 := by
        simp [acquire, h1]
      omega

end ET

namespace ET

/-- Witness for C2 at a concrete run: with an empty text layer the OCR
stage is reached with all three prior stages empty, and the quick loop
stops after the second page, the first page having produced no tokens. -/
theorem claim_C2_escalation_order_witness :
    (extractQuestionsFromLines [] = [] ∧
     extractQuestionsFromText2 [] = [] ∧
     layoutQuestions none = [] ∧
     (acquire [] [] none true true false c2Chunks).attempted
       = [Stage.lines, Stage.text2, Stage.layout, Stage.ocr]) ∧
    ((c2Chunks.getD 0 []).isEmpty = true ∨
     extractQuestionsFromText2
       (quickAccumText [] ((c2Chunks.take 1).filter (fun c => !c.isEmpty))) = []) :=
  ⟨(claim_C2_escalation_order [] [] none true true false c2Chunks).2.1 (by decide),
   (claim_C2_escalation_order [] [] none true true false c2Chunks).2.2 rfl 0 (by decide)⟩

end ET

namespace ET

/-- Adding one span to the bucket list puts it in exactly one bucket: the
concatenation of all bucket parts gains exactly that span. -/
theorem addSpan_join (yTol : ℚ) (sp : Span) :
    ∀ raw : List Bucket,
      List.Perm ((addSpan yTol raw sp).map Bucket.parts).flatten
        ((raw.map Bucket.parts).flatten ++ [sp]) := by
  intro raw
  induction raw with
  | nil => simp [addSpan]
  | cons b bs ih =>
    by_cases h : |b.y - sp.y| ≤ yTol
    · simp only [addSpan, if_pos h, List.map_cons, List.flatten_cons]
      have h1 : List.Perm ([sp] ++ (bs.map Bucket.parts).flatten)
          ((bs.map Bucket.parts).flatten ++ [sp]) := List.perm_append_comm
      have h2 := List.Perm.append_left b.parts h1
      simpa using h2
    · simp only [addSpan, if_neg h, List.map_cons, List.flatten_cons]
      have h2 := List.Perm.append_left b.parts ih
      simpa using h2

theorem buckets_join_perm_aux (yTol : ℚ) :
    ∀ (spans : List Span) (acc : List Bucket),
      List.Perm ((spans.foldl (addSpan yTol) acc).map Bucket.parts).flatten
        ((acc.map Bucket.parts).flatten ++ spans) := by
  intro spans
  induction spans with
  | nil => intro acc; simp
  | cons sp rest ih =>
    intro acc
    have h1 := ih (addSpan yTol acc sp)
    have h2 := List.Perm.append_right rest (addSpan_join yTol sp acc)
    have h3 := h1.trans h2
    simpa using h3

theorem addSpan_length (yTol : ℚ) (sp : Span) :
    ∀ raw : List Bucket, (addSpan yTol raw sp).length ≤ raw.length + 1 := by
  intro raw
  induction raw with
  | nil => simp [addSpan]
  | cons b bs ih =>
    by_cases h : |b.y - sp.y| ≤ yTol
    · simp [addSpan, if_pos h]
    · simp only [addSpan, if_neg h, List.length_cons]
      omega

theorem buckets_length_aux (yTol : ℚ) :
    ∀ (spans : List Span) (acc : List Bucket),
      (spans.foldl (addSpan yTol) acc).length ≤ acc.length + spans.length := by
  intro spans
  induction spans with
  | nil => intro acc; simp
  | cons sp rest ih =>
    intro acc
    have h1 := ih (addSpan yTol acc sp)
    have h2 := addSpan_length yTol sp acc
    simp only [List.foldl_cons, List.length_cons]
    omega

/-- C10 as amended: line reconstruction emits at most as many lines as
there are glyph runs, and the line buckets partition exactly the runs
with non-empty text (each such run lands in precisely one bucket); a run
with empty text, or one whose whole line cleans to the empty string, is
the only way a run contributes to no output line. -/
theorem claim_C10_amended (items : List PdfTextItem) (page : Int)
    (cfg : DetectorConfig) :
    (buildLinesFromItems items page cfg).length ≤ items.length ∧
    List.Perm ((bucketsOf cfg.yTolerancePx items).map Bucket.parts).flatten
      (spansOf items) := by
  constructor
  · have h1 : (buildLinesFromItems items page cfg).length ≤
        (bucketsOf cfg.yTolerancePx items).length := by
      unfold buildLinesFromItems
      exact List.length_filterMap_le _ _
    have h2 : (bucketsOf cfg.yTolerancePx items).length ≤
        (spansOf items).length := by
      unfold bucketsOf
      have := buckets_length_aux cfg.yTolerancePx
        ((spansOf items).insertionSort spanLE) []
      simpa [List.length_insertionSort] using this
    have h3 : (spansOf items).length ≤ items.length := by
      unfold spansOf
      exact List.length_filterMap_le _ _
    omega
  · have h1 := buckets_join_perm_aux cfg.yTolerancePx
      ((spansOf items).insertionSort spanLE) []
    have h2 : List.Perm ((spansOf items).insertionSort spanLE) (spansOf items) :=
      List.perm_insertionSort spanLE _
    unfold bucketsOf
    exact (by simpa using h1 : List.Perm _ _).trans h2

/-- C10 counterexample: a glyph run holding a single space character is
lost: it contributes to no output line, refuting the claim that every run
contributes to exactly one line. -/
theorem claim_C10_counterexample :
    buildLinesFromItems
      [{ str := [' '], transform := some [1, 0, 0, 1, 0, 0] }] 1 defaultConfig
      = [] ∧
    ([{ str := [' '], transform := some [1, 0, 0, 1, 0, 0] }] :
      List PdfTextItem).length = 1 := ⟨rfl, rfl⟩

end ET


namespace ET

theorem mem_hfKeep_foldl (bp : List (Int × List LineP)) (thr : Nat) :
    ∀ (l : List (Int × List LineP)) (acc : List LineP) (x : LineP),
      x ∈ List.foldl (fun acc e => acc ++ hfKeep bp thr e.2) acc l ↔
      x ∈ acc ∨ ∃ e ∈ l, x ∈ hfKeep bp thr e.2 := by
  intro l
  induction l with
  | nil => intro acc x; simp
  | cons e rest ih =>
    intro acc x
    rw [List.foldl_cons, ih]
    simp only [List.mem_append, List.mem_cons]
    constructor
    · rintro (⟨h | h⟩ | ⟨e2, he2, hx⟩)
      · exact Or.inl h
      · exact Or.inr ⟨e, Or.inl rfl, h⟩
      · exact Or.inr ⟨e2, Or.inr he2, hx⟩
    · rintro (h | ⟨e2, (rfl | he2), hx⟩)
      · exact Or.inl (Or.inl h)
      · exact Or.inl (Or.inr hx)
      · exact Or.inr ⟨e2, he2, hx⟩

/-- C5 as amended: when a text reaches the sixty percent threshold in the
top three band over at least two pages, every top band occurrence of it
is removed by filterHeaderFooterLines before the line based heading stage
runs; in particular a text occurring only in top three slots does not
survive the filter at all.  The flat text fallback of the pipeline works
on the unfiltered full text and can still derive a token from such a
line, which is what refutes the original claim. -/
theorem claim_C5_amended (lines : List LineP) (totalPages : Nat) (s : List Char)
    (h2 : 2 ≤ totalPages)
    (hcnt : (3 : ℚ) / 5 * totalPages ≤ topCountOf (byPageOf lines) s)
    (hpos : ∀ e ∈ byPageOf lines, ∀ p ∈ e.2.enum, p.2.text = s → p.1 < 3) :
    ∀ ln ∈ filterHeaderFooterLines lines totalPages, ln.text ≠ s := by
  intro ln hmem hts
  have hthr : hfThreshold totalPages ≤ topCountOf (byPageOf lines) s := by
    have hmax : max 1 totalPages = totalPages := by omega
    have h35 : 3 * totalPages ≤ 5 * topCountOf (byPageOf lines) s := by
      have hq : ((3 * totalPages : ℕ) : ℚ) ≤
          ((5 * topCountOf (byPageOf lines) s : ℕ) : ℚ) := by
        push_cast
        linarith
      exact_mod_cast hq
    have hdiv : 3 * totalPages / 5 ≤ topCountOf (byPageOf lines) s := by
      have h5 := Nat.div_le_div_right (c := 5) h35
      simpa [Nat.mul_div_cancel_left] using h5
    have hc2 : 2 ≤ topCountOf (byPageOf lines) s := by
      have h65 : (6 / 5 : ℚ) ≤ (topCountOf (byPageOf lines) s : ℚ) := by
        have hn : (2 : ℚ) ≤ (totalPages : ℚ) := by exact_mod_cast h2
        nlinarith
      have h1lt : (1 : ℚ) < (topCountOf (byPageOf lines) s : ℚ) := by linarith
      exact_mod_cast by exact_mod_cast Nat.succ_le_of_lt (by exact_mod_cast h1lt)
    unfold hfThreshold
    rw [hmax]
    omega
  unfold filterHeaderFooterLines at hmem
  rw [(List.perm_insertionSort linePageLE _).mem_iff] at hmem
  rw [mem_hfKeep_foldl (byPageOf lines) (hfThreshold totalPages)] at hmem
  rcases hmem with hfalse | ⟨e, he, hmemp⟩
  · exact absurd hfalse (by simp)
  simp only [hfKeep, List.mem_filterMap] at hmemp
  obtain ⟨i, hi, hgi⟩ := hmemp
  cases hget : e.2.get? i with
  | none => rw [hget] at hgi; exact absurd hgi (by simp)
  | some l2 =>
    rw [hget] at hgi
    simp only at hgi
    by_cases hcond : (decide (i < 3) &&
        decide (hfThreshold totalPages ≤ topCountOf (byPageOf lines) l2.text) ||
        (decide (e.2.length ≤ i + 3) &&
         decide (hfThreshold totalPages ≤ bottomCountOf (byPageOf lines) l2.text))) = true
    · rw [if_pos hcond] at hgi
      exact absurd hgi (by simp)
    · rw [if_neg hcond] at hgi
      have hl2 : l2 = ln := by simpa using hgi
      subst hl2
      have hi3 : i < 3 := by
        have := hpos e he (i, l2) ?_ hts
        · exact this
        · rw [List.mk_mem_enum_iff_getElem?]
          rw [← List.get?_eq_getElem?]
          exact hget
      apply hcond
      rw [hts]
      simp only [Bool.or_eq_true, Bool.and_eq_true, decide_eq_true_eq]
      exact Or.inl ⟨hi3, hthr⟩

end ET

namespace ET

/-- Witness for the amended C5: in a two page document whose line 3.
sits in the top band of both pages, no occurrence survives the filter. -/
theorem claim_C5_amended_witness :
    (⟨"3.".toList, 1⟩ : LineP) ∉
      filterHeaderFooterLines [⟨"3.".toList, 1⟩, ⟨"3.".toList, 2⟩] 2 :=
  fun h =>
    claim_C5_amended [⟨"3.".toList, 1⟩, ⟨"3.".toList, 2⟩] 2 "3.".toList
      (by decide)
      (by
        have hc : topCountOf
            (byPageOf [⟨"3.".toList, 1⟩, ⟨"3.".toList, 2⟩]) "3.".toList = 2 := rfl
        rw [hc]
        norm_num)
      (by decide) ⟨"3.".toList, 1⟩ h rfl

/-- C5 counterexample: in the two page document whose only content is the
repeated top line 3. (present in the top three lines of one hundred
percent of the pages, hence common), the filter removes every occurrence,
yet the final parsePdf result still contains the main question token 3,
produced by the flat text fallback from the unfiltered full text. -/
theorem claim_C5_counterexample :
    structuredLinesOf [[c5Item], [c5Item]]
        = [⟨"3.".toList, 1⟩, ⟨"3.".toList, 2⟩] ∧
    hfThreshold 2 ≤
      topCountOf (byPageOf (structuredLinesOf [[c5Item], [c5Item]])) "3.".toList ∧
    filterHeaderFooterLines (structuredLinesOf [[c5Item], [c5Item]]) 2 = [] ∧
    (parsePdf noDetectors c5Input).questions.map (fun q => q.number) = ["3"] := by
  refine ⟨rfl, by decide, rfl, rfl⟩

end ET

namespace ET

/-! ## Sub letter domain lemmas (for the token cap bound) -/

theorem char_toNat_ofNat {m : Nat} (h : m < 55296) : (Char.ofNat m).toNat = m := by
  unfold Char.ofNat
  rw [dif_pos (Or.inl h)]
  simp [Char.ofNatAux, Char.toNat, UInt32.toNat, BitVec.toNat_ofNatLt]

theorem char_toNat_injective : Function.Injective Char.toNat := by
  intro a b h
  apply Char.eq_of_val_eq
  apply UInt32.eq_of_toBitVec_eq
  exact BitVec.eq_of_toNat_eq h

theorem toLower_range {c : Char} (h : asciiAlpha c = true) :
    97 ≤ c.toLower.toNat ∧ c.toLower.toNat ≤ 122 := by
  unfold asciiAlpha at h
  simp only [Bool.or_eq_true, Bool.and_eq_true, decide_eq_true_eq] at h
  rcases h with ⟨h1, h2⟩ | ⟨h1, h2⟩
  · have hn1 : 97 ≤ c.toNat := h1
    have hn2 : c.toNat ≤ 122 := h2
    unfold Char.toLower
    rw [if_neg (by omega)]
    exact ⟨hn1, hn2⟩
  · have hn1 : 65 ≤ c.toNat := h1
    have hn2 : c.toNat ≤ 90 := h2
    unfold Char.toLower
    rw [if_pos ⟨by omega, by omega⟩]
    rw [char_toNat_ofNat (by omega)]
    omega

theorem letterRange_range {a b c : Char} (h : c ∈ letterRange a b) :
    97 ≤ c.toNat ∧ c.toNat ≤ 122 := by
  unfold letterRange at h
  simp only [show ('a').toNat = 97 from rfl, show ('z').toNat = 122 from rfl,
    List.mem_map, List.mem_range] at h
  obtain ⟨k, hk, rfl⟩ := h
  have hb : 97 ≤ max 97 (min a.toLower.toNat b.toLower.toNat) + k ∧
      max 97 (min a.toLower.toNat b.toLower.toNat) + k ≤ 122 := by omega
  rw [char_toNat_ofNat (by omega)]
  exact hb

theorem newSubs_nodup {m : Nat} (hm : m ≤ 26) :
    ((List.range m).map (fun k => Char.ofNat (97 + k))).Nodup := by
  apply List.Nodup.map_on
  · intro k1 hk1 k2 hk2 he
    rw [List.mem_range] at hk1 hk2
    have h1 := char_toNat_ofNat (m := 97 + k1) (by omega)
    have h2 := char_toNat_ofNat (m := 97 + k2) (by omega)
    have he2 := congrArg Char.toNat he
    rw [h1, h2] at he2
    omega
  · exact List.nodup_range m

theorem newSubs_range {n : Nat} {ch : Char} (hm : n ≤ 26)
    (h : ch ∈ (List.range n).map (fun k => Char.ofNat (97 + k))) :
    97 ≤ ch.toNat ∧ ch.toNat ≤ 122 := by
  simp only [List.mem_map, List.mem_range] at h
  obtain ⟨k, hk, rfl⟩ := h
  rw [char_toNat_ofNat (by omega)]
  omega

theorem nodup_lower_le_26 {l : List Char} (hnd : l.Nodup)
    (hdom : ∀ c ∈ l, 97 ≤ c.toNat ∧ c.toNat ≤ 122) : l.length ≤ 26 := by
  have hnd2 : (l.map Char.toNat).Nodup := hnd.map char_toNat_injective
  have hsub : (l.map Char.toNat).toFinset ⊆ Finset.Icc 97 122 := by
    intro n hn
    rw [List.mem_toFinset, List.mem_map] at hn
    obtain ⟨c, hc, rfl⟩ := hn
    rw [Finset.mem_Icc]
    exact hdom c hc
  have h1 : (l.map Char.toNat).toFinset.card = (l.map Char.toNat).length :=
    List.toFinset_card_of_nodup hnd2
  have h2 := Finset.card_le_card hsub
  rw [h1, List.length_map] at h2
  simpa [Nat.card_Icc] using h2

theorem firstSome_eq_some {α β : Type} {f : α → Option β} {l : List α} {b : β}
    (h : firstSome f l = some b) : ∃ a ∈ l, f a = some b := by
  induction l with
  | nil => exact absurd h (by simp [firstSome])
  | cons a as ih =>
    rw [firstSome] at h
    cases hf : f a with
    | some b2 =>
      rw [hf] at h
      exact ⟨a, List.mem_cons_self a as, hf.trans h⟩
    | none =>
      rw [hf] at h
      obtain ⟨a2, ha2, h2⟩ := ih h
      exact ⟨a2, List.mem_cons_of_mem _ ha2, h2⟩

end ET

namespace ET

/-! ## The captured letters of the matchers are ASCII letters -/

theorem combinedTail_alpha {r : List Char} {m : Nat × Nat × Char}
    (h : combinedTail r = some m) : asciiAlpha m.2.2 = true := by
  obtain ⟨cand, _, hc⟩ := firstSome_eq_some h
  dsimp only at hc
  split at hc
  · split at hc
    · split at hc
      · split at hc
        · injection hc with he
          subst he
          assumption
        · exact absurd hc (by simp)
      · exact absurd hc (by simp)
    · exact absurd hc (by simp)
  · exact absurd hc (by simp)

theorem combinedAt_alpha {prev : Option Char} {s : List Char}
    {m : Nat × Nat × Char} (h : combinedAt prev s = some m) :
    asciiAlpha m.2.2 = true := by
  simp only [combinedAt] at h
  split at h
  · rename_i m2 heq
    injection h with he
    subst he
    split at heq
    · exact absurd heq (by simp)
    · obtain ⟨w, _, hww⟩ := firstSome_eq_some heq
      split at hww
      · rename_i r hr
        rcases Option.map_eq_some'.mp hww with ⟨mt, hmt, hval⟩
        have := combinedTail_alpha hmt
        rw [← hval]
        exact this
      · exact absurd hww (by simp)
  · exact combinedTail_alpha h

theorem combinedScanGo_alpha :
    ∀ (fuel : Nat) (prev : Option Char) (pos : Nat) (s : List Char)
      (m : Nat × Nat × Nat × Char), m ∈ combinedScanGo fuel prev pos s →
      asciiAlpha m.2.2.2 = true := by
  intro fuel
  induction fuel with
  | zero => intro prev pos s m h; exact absurd h (by simp [combinedScanGo])
  | succ fuel ih =>
    intro prev pos s m h
    cases s with
    | nil => exact absurd h (by simp [combinedScanGo])
    | cons c rest =>
      rw [combinedScanGo] at h
      cases hat : combinedAt prev (c :: rest) with
      | none =>
        rw [hat] at h
        exact ih _ _ _ m h
      | some ml =>
        rw [hat] at h
        rcases List.mem_cons.mp h with rfl | h2
        · exact combinedAt_alpha hat
        · exact ih _ _ _ m h2

theorem combinedScan_alpha {s : List Char} {m : Nat × Nat × Nat × Char}
    (h : m ∈ combinedScan s) : asciiAlpha m.2.2.2 = true :=
  combinedScanGo_alpha _ _ _ _ m h

theorem letterLineRe_alpha {t : List Char} {m : Char × Nat}
    (h : letterLineRe t = some m) : asciiAlpha m.1 = true := by
  obtain ⟨pre, _, hc⟩ := firstSome_eq_some h
  obtain ⟨lp, _, hc2⟩ := firstSome_eq_some hc
  dsimp only at hc2
  split at hc2
  · split at hc2
    · obtain ⟨rp, _, hc3⟩ := firstSome_eq_some hc2
      split at hc3
      · split at hc3
        · injection hc3 with he
          subst he
          assumption
        · exact absurd hc3 (by simp)
      · exact absurd hc3 (by simp)
    · exact absurd hc2 (by simp)
  · exact absurd hc2 (by simp)

theorem letterAnyCore_alpha {s : List Char} {m : Nat × Char}
    (h : letterAnyCore s = some m) : asciiAlpha m.2 = true := by
  obtain ⟨pre, _, hc⟩ := firstSome_eq_some h
  obtain ⟨lp, _, hc2⟩ := firstSome_eq_some hc
  dsimp only at hc2
  split at hc2
  · split at hc2
    · obtain ⟨rp, _, hc3⟩ := firstSome_eq_some hc2
      split at hc3
      · split at hc3
        · injection hc3 with he
          subst he
          assumption
        · exact absurd hc3 (by simp)
      · exact absurd hc3 (by simp)
    · exact absurd hc2 (by simp)
  · exact absurd hc2 (by simp)

theorem letterAnyAt_alpha {b : Bool} {s : List Char} {m : Nat × Char}
    (h : letterAnyAt b s = some m) : asciiAlpha m.2 = true := by
  simp only [letterAnyAt] at h
  split at h
  · rename_i m2 heq
    injection h with he
    subst he
    split at heq
    · exact letterAnyCore_alpha heq
    · exact absurd heq (by simp)
  · split at h
    · split at h
      · rcases Option.map_eq_some'.mp h with ⟨mc, hmc, hval⟩
        have := letterAnyCore_alpha hmc
        rw [← hval]
        exact this
      · exact absurd h (by simp)
    · exact absurd h (by simp)

theorem letterHitsGo_alpha :
    ∀ (fuel : Nat) (b : Bool) (pos : Nat) (s : List Char)
      (m : Nat × Nat × Char), m ∈ letterHitsGo fuel b pos s →
      asciiAlpha m.2.2 = true := by
  intro fuel
  induction fuel with
  | zero => intro b pos s m h; exact absurd h (by simp [letterHitsGo])
  | succ fuel ih =>
    intro b pos s m h
    cases s with
    | nil => exact absurd h (by simp [letterHitsGo])
    | cons c rest =>
      rw [letterHitsGo] at h
      cases hat : letterAnyAt b (c :: rest) with
      | none =>
        rw [hat] at h
        exact ih _ _ _ m h
      | some ml =>
        rw [hat] at h
        rcases List.mem_cons.mp h with rfl | h2
        · exact letterAnyAt_alpha hat
        · exact ih _ _ _ m h2

theorem letterHits_alpha {s : List Char} {m : Nat × Nat × Char}
    (h : m ∈ letterHits s) : asciiAlpha m.2.2 = true :=
  letterHitsGo_alpha _ _ _ _ m h

end ET

namespace ET

/-! ## C7: the sub list invariant through the extractor state operations -/

theorem subWF_of_subOrder_eq {st st2 : QState} (he : st2.subOrder = st.subOrder)
    (h : subWF st) : subWF st2 := by
  intro e hmem
  rw [he] at hmem
  exact h e hmem

theorem subWF_getSubs {st : QState} (h : subWF st) (n : Nat) :
    (st.getSubs n).Nodup ∧ ∀ c ∈ st.getSubs n, 97 ≤ c.toNat ∧ c.toNat ≤ 122 := by
  unfold QState.getSubs
  cases hf : st.subOrder.find? (fun p => p.1 = n) with
  | none => simp
  | some p =>
    exact h p (List.mem_of_find?_eq_some hf)

theorem subWF_setSubs (n : Nat) {v : List Char} (hv : v.Nodup)
    (hd : ∀ c ∈ v, 97 ≤ c.toNat ∧ c.toNat ≤ 122) {st : QState} (h : subWF st) :
    subWF (st.setSubs n v) := by
  intro e hmem
  simp only [QState.setSubs, List.mem_map] at hmem
  obtain ⟨p, hp, hpe⟩ := hmem
  split at hpe
  · subst hpe
    exact ⟨hv, hd⟩
  · subst hpe
    exact h p hp

theorem ensureMain_subOrder (st : QState) (n : Nat) :
    (st.ensureMain n).subOrder = st.subOrder ∨
    (st.ensureMain n).subOrder = st.subOrder ++ [(n, ([] : List Char))] := by
  unfold QState.ensureMain
  dsimp only
  split <;> split <;> first | (left ; rfl) | (right ; rfl)

theorem subWF_ensureMain (n : Nat) {st : QState} (h : subWF st) :
    subWF (st.ensureMain n) := by
  rcases ensureMain_subOrder st n with he | he
  · exact subWF_of_subOrder_eq he h
  · intro e hmem
    rw [he, List.mem_append] at hmem
    rcases hmem with hm | hm
    · exact h e hm
    · rw [List.mem_singleton] at hm
      subst hm
      exact ⟨List.nodup_nil, by simp⟩

theorem subWF_addSub (n : Nat) {L : Char} (hL : 97 ≤ L.toNat ∧ L.toNat ≤ 122)
    {st : QState} (h : subWF st) : subWF (st.addSub n L) := by
  unfold QState.addSub
  dsimp only
  split
  · exact h
  · rename_i hc
    have hg := subWF_getSubs h n
    have hnin : L ∉ st.getSubs n := by
      intro hmem
      exact hc (List.elem_eq_true_of_mem hmem)
    apply subWF_setSubs n _ _ h
    · rw [List.nodup_append]
      refine ⟨hg.1, List.nodup_singleton L, ?dis⟩
      intro a ha hmem
      rw [List.mem_singleton] at hmem
      subst hmem
      exact hnin ha
    · intro c hc2
      rw [List.mem_append] at hc2
      rcases hc2 with hm | hm
      · exact hg.2 c hm
      · rw [List.mem_singleton] at hm
        subst hm
        exact hL

theorem subWF_setPoints (tok : String) (v : Nat) {st : QState} (h : subWF st) :
    subWF (st.setPoints tok v) :=
  subWF_of_subOrder_eq rfl h

theorem subWF_pointsIfAbsent (tok : String) (v : Nat) {st : QState} (h : subWF st) :
    subWF (st.pointsIfAbsent tok v) := by
  unfold QState.pointsIfAbsent
  split
  · exact h
  · exact subWF_setPoints tok v h

theorem subWF_pageIfAbsent (tok : String) (p : Int) {st : QState} (h : subWF st) :
    subWF (st.pageIfAbsent tok p) := by
  unfold QState.pageIfAbsent
  split
  · exact h
  · exact subWF_of_subOrder_eq rfl h

theorem subWF_foldl {α : Type} {f : QState → α → QState} {l : List α}
    (hstep : ∀ s a, a ∈ l → subWF s → subWF (f s a)) {st : QState} (h : subWF st) :
    subWF (l.foldl f st) := by
  induction l generalizing st with
  | nil => exact h
  | cons a as ih =>
    rw [List.foldl_cons]
    exact ih (fun s b hb hs => hstep s b (List.mem_cons_of_mem a hb) hs)
      (hstep st a (List.mem_cons_self a as) h)

theorem subWF_empty : subWF ({} : QState) := by
  intro e hmem
  exact absurd hmem (List.not_mem_nil e)

theorem getSubs_length_le {st : QState} (h : subWF st) (n : Nat) :
    (st.getSubs n).length ≤ 26 := by
  have hg := subWF_getSubs h n
  exact nodup_lower_le_26 hg.1 hg.2

end ET

namespace ET

theorem subWF_flCombined (t : List Char) (page : Int) {st : QState} (h : subWF st) :
    subWF (flCombined t page st) := by
  unfold flCombined
  apply subWF_foldl _ h
  intro s m hm hs
  dsimp only
  have hL := toLower_range (combinedScan_alpha hm)
  have h3 : subWF (((s.ensureMain m.2.2.1).addSub m.2.2.1
      m.2.2.2.toLower).pageIfAbsent (tokenStr m.2.2.1 m.2.2.2.toLower) page) :=
    subWF_pageIfAbsent _ _ (subWF_addSub _ hL (subWF_ensureMain _ hs))
  split
  · exact h3
  · split
    · exact subWF_setPoints _ _ h3
    · split
      · exact subWF_setPoints _ _ h3
      · exact h3

end ET

namespace ET

theorem subWF_flMainBranch (t : List Char) (page : Int) (n m0 : Nat)
    (nextNorm : Option (List Char)) {st : QState} (h : subWF st) :
    subWF (flMainBranch t page n m0 nextNorm st) := by
  have hA : subWF ((st.ensureMain n).pageIfAbsent (toString n) page) :=
    subWF_pageIfAbsent _ _ (subWF_ensureMain _ h)
  have hB : ∀ o : Option Nat, subWF (match o with
      | some p => ((st.ensureMain n).pageIfAbsent (toString n) page).pointsIfAbsent
          (toString n) p
      | none => (st.ensureMain n).pageIfAbsent (toString n) page) := by
    intro o
    cases o with
    | none => exact hA
    | some p => exact subWF_pointsIfAbsent _ _ hA
  have hC : ∀ (oe : Option (Char × Char)) (opn : Option Nat) {s : QState},
      subWF s → subWF (match oe with
        | some ab =>
          (match opn with
           | some pe => (letterRange ab.1 ab.2).foldl (fun s2 L =>
               let s2 := s2.ensureMain n
               let s2 := s2.addSub n L
               let tok := tokenStr n L
               let s2 := s2.pageIfAbsent tok page
               s2.pointsIfAbsent tok pe) s
           | none => s)
        | none => s) := by
    intro oe opn s hs
    cases oe with
    | none => exact hs
    | some ab =>
      cases opn with
      | none => exact hs
      | some pe =>
        apply subWF_foldl _ hs
        intro s2 L hL hs2
        exact subWF_pointsIfAbsent _ _ (subWF_pageIfAbsent _ _
          (subWF_addSub _ (letterRange_range hL) (subWF_ensureMain _ hs2)))
  have hD : ∀ (ol : Option (List Nat)) {s : QState}, subWF s →
      subWF (match ol with
        | some list =>
          let st2 := s.ensureMain n
          let subs0 := st2.getSubs n
          let stSubs : QState × List Char :=
            if subs0.isEmpty then
              let newSubs := (List.range (min 26 list.length)).map
                (fun k => Char.ofNat ('a'.toNat + k))
              (st2.setSubs n newSubs, newSubs)
            else (st2, subs0)
          let st3 := stSubs.1
          let subs := stSubs.2
          (List.range (min subs.length list.length)).foldl (fun s2 k =>
            let tok := tokenStr n (subs.getD k 'a')
            let s2 := s2.pageIfAbsent tok page
            s2.pointsIfAbsent tok (list.getD k 0)) st3
        | none => s) := by
    intro ol s hs
    cases ol with
    | none => exact hs
    | some list =>
      dsimp only
      by_cases hemp : ((s.ensureMain n).getSubs n).isEmpty = true
      · rw [if_pos hemp]
        apply subWF_foldl
        · intro s2 k _ hs2
          exact subWF_pointsIfAbsent _ _ (subWF_pageIfAbsent _ _ hs2)
        · apply subWF_setSubs n (newSubs_nodup (min_le_left _ _))
            (fun c hc => newSubs_range (min_le_left _ _) hc)
            (subWF_ensureMain _ hs)
      · rw [if_neg hemp]
        apply subWF_foldl
        · intro s2 k _ hs2
          exact subWF_pointsIfAbsent _ _ (subWF_pageIfAbsent _ _ hs2)
        · exact subWF_ensureMain _ hs
  exact hD _ (hC _ _ (hB _))

end ET

namespace ET

theorem subWF_flLetterBranch (t : List Char) (page : Int) (cm : Nat) {Lraw : Char}
    (hAl : asciiAlpha Lraw = true) (m0 : Nat) (nextNorm : Option (List Char))
    {st : QState} (h : subWF st) :
    subWF (flLetterBranch t page cm Lraw m0 nextNorm st) := by
  have h1 : subWF (((st.ensureMain cm).addSub cm Lraw.toLower).pageIfAbsent
      (tokenStr cm Lraw.toLower) page) :=
    subWF_pageIfAbsent _ _ (subWF_addSub _ (toLower_range hAl)
      (subWF_ensureMain _ h))
  have h2 : ∀ o : Option Nat, subWF (match o with
      | some p => (((st.ensureMain cm).addSub cm Lraw.toLower).pageIfAbsent
          (tokenStr cm Lraw.toLower) page).pointsIfAbsent (tokenStr cm Lraw.toLower) p
      | none => ((st.ensureMain cm).addSub cm Lraw.toLower).pageIfAbsent
          (tokenStr cm Lraw.toLower) page) := by
    intro o
    cases o with
    | none => exact h1
    | some p => exact subWF_pointsIfAbsent _ _ h1
  exact h2 _

theorem subWF_flLoop : ∀ (lines : List LineP) (cm : Option Nat) {st : QState},
    subWF st → subWF (flLoop st cm lines) := by
  intro lines
  induction lines with
  | nil => intro cm st h; exact h
  | cons ln rest ih =>
    intro cm st h
    rw [flLoop]
    have h1 : subWF (flCombined (normalizeDiacritics ln.text) ln.page st) :=
      subWF_flCombined _ _ h
    split
    · exact ih _ (subWF_flMainBranch _ _ _ _ _ h1)
    · split
      · rename_i lm heq
        split
        · exact ih _ (subWF_flLetterBranch _ _ _ (letterLineRe_alpha heq) _ _ h1)
        · exact ih _ h1
      · exact ih _ h1

theorem subWF_t2MainBranch (line : List Char) (n m0 : Nat)
    (nextRaw : Option (List Char)) {st : QState} (h : subWF st) :
    subWF (t2MainBranch line n m0 nextRaw st) := by
  have hA : subWF (st.ensureMain n) := subWF_ensureMain _ h
  have hB : ∀ o : Option Nat, subWF (match o with
      | some p =>
        if ((st.ensureMain n).getSubs n).isEmpty then
          (st.ensureMain n).pointsIfAbsent (toString n) p
        else st.ensureMain n
      | none => st.ensureMain n) := by
    intro o
    cases o with
    | none => exact hA
    | some p =>
      split
      · split
        · exact subWF_pointsIfAbsent _ _ hA
        · exact hA
      · exact hA
  have hC : ∀ (oe : Option (Char × Char)) (opn : Option Nat) {s : QState},
      subWF s → subWF (match oe with
        | some ab =>
          (match opn with
           | some pe => (letterRange ab.1 ab.2).foldl (fun s2 L =>
               let s2 := s2.ensureMain n
               let s2 := s2.addSub n L
               s2.pointsIfAbsent (tokenStr n L) pe) s
           | none => s)
        | none => s) := by
    intro oe opn s hs
    cases oe with
    | none => exact hs
    | some ab =>
      cases opn with
      | none => exact hs
      | some pe =>
        apply subWF_foldl _ hs
        intro s2 L hL hs2
        exact subWF_pointsIfAbsent _ _
          (subWF_addSub _ (letterRange_range hL) (subWF_ensureMain _ hs2))
  have hD : ∀ (ol : Option (List Nat)) {s : QState}, subWF s →
      subWF (match ol with
        | some list =>
          let st2 := s.ensureMain n
          let subs0 := st2.getSubs n
          let stSubs : QState × List Char :=
            if subs0.isEmpty then
              let newSubs := (List.range (min 26 list.length)).map
                (fun k => Char.ofNat ('a'.toNat + k))
              (st2.setSubs n newSubs, newSubs)
            else (st2, subs0)
          (List.range (min stSubs.2.length list.length)).foldl (fun s2 k =>
            s2.pointsIfAbsent (tokenStr n (stSubs.2.getD k 'a')) (list.getD k 0))
            stSubs.1
        | none => s) := by
    intro ol s hs
    cases ol with
    | none => exact hs
    | some list =>
      dsimp only
      by_cases hemp : ((s.ensureMain n).getSubs n).isEmpty = true
      · rw [if_pos hemp]
        apply subWF_foldl
        · intro s2 k _ hs2
          exact subWF_pointsIfAbsent _ _ hs2
        · apply subWF_setSubs n (newSubs_nodup (min_le_left _ _))
            (fun c hc => newSubs_range (min_le_left _ _) hc)
            (subWF_ensureMain _ hs)
      · rw [if_neg hemp]
        apply subWF_foldl
        · intro s2 k _ hs2
          exact subWF_pointsIfAbsent _ _ hs2
        · exact subWF_ensureMain _ hs
  exact hD _ (hC _ _ (hB _))

theorem subWF_t2Loop : ∀ (lines : List (List Char)) (cm : Option Nat) {st : QState},
    subWF st → subWF (t2Loop st cm lines) := by
  intro lines
  induction lines with
  | nil => intro cm st h; exact h
  | cons line rest ih =>
    intro cm st h
    rw [t2Loop]
    split
    · exact ih _ (subWF_t2MainBranch _ _ _ _ h)
    · split
      · rename_i lm heq
        split
        · rename_i n
          apply ih
          have h2 : subWF ((st.ensureMain n).addSub n lm.1.toLower) :=
            subWF_addSub _ (toLower_range (letterLineRe_alpha heq))
              (subWF_ensureMain _ h)
          split
          · exact subWF_pointsIfAbsent _ _ h2
          · exact h2
        · exact ih _ h
      · exact ih _ h

theorem subWF_t2Combined (normalized : List Char) :
    ∀ (ms : List (Nat × Nat × Nat × Char)),
    (∀ m ∈ ms, asciiAlpha m.2.2.2 = true) →
    ∀ {st : QState}, subWF st → subWF (t2Combined normalized ms st) := by
  intro ms
  induction ms with
  | nil => intro _ st h; exact h
  | cons m rest ih =>
    intro halpha st h
    rw [t2Combined]
    have h2 : subWF ((st.ensureMain m.2.2.1).addSub m.2.2.1 m.2.2.2.toLower) :=
      subWF_addSub _ (toLower_range (halpha m (List.mem_cons_self m rest)))
        (subWF_ensureMain _ h)
    have hT : ∀ (o1 o2 : Option Nat) (s : QState), subWF s → subWF
        (if s.hasPoints (tokenStr m.2.2.1 m.2.2.2.toLower) then s
         else match o1 with
           | some p => s.setPoints (tokenStr m.2.2.1 m.2.2.2.toLower) p
           | none => match o2 with
             | some p => s.setPoints (tokenStr m.2.2.1 m.2.2.2.toLower) p
             | none => s) := by
      intro o1 o2 s hs
      split
      · exact hs
      · cases o1 with
        | some p => exact subWF_setPoints _ _ hs
        | none =>
          cases o2 with
          | some p => exact subWF_setPoints _ _ hs
          | none => exact hs
    have hcap : ∀ s : QState, subWF s →
        subWF (if 80 ≤ s.mainOrder.length then s else t2Combined normalized rest s) := by
      intro s hs
      split
      · exact hs
      · exact ih (fun m2 hm2 => halpha m2 (List.mem_cons_of_mem m hm2)) hs
    exact hcap _ (hT _ _ _ h2)

theorem subWF_t2Bind (normalized : List Char) (hits : List (Nat × Nat)) {st : QState}
    (h : subWF st) : subWF (t2Bind normalized hits st) := by
  unfold t2Bind
  apply subWF_foldl _ h
  intro s lh hlh hs
  dsimp only
  have hL := toLower_range (letterHits_alpha hlh)
  split
  · rename_i hh heq
    have h2 : subWF ((s.ensureMain hh.1).addSub hh.1 lh.2.2.toLower) :=
      subWF_addSub _ hL (subWF_ensureMain _ hs)
    split
    · exact h2
    · split
      · exact subWF_setPoints _ _ h2
      · split
        · exact subWF_setPoints _ _ h2
        · exact h2
  · exact hs

theorem emitTokens_length_le {st : QState} (h : subWF st) :
    ∀ (ns : List Nat) (acc : List String), acc.length ≤ 149 →
    (emitTokens ns st acc).length ≤ 175 := by
  intro ns
  induction ns with
  | nil =>
    intro acc hacc
    rw [emitTokens]
    omega
  | cons n rest ih =>
    intro acc hacc
    rw [emitTokens]
    have h26 := getSubs_length_le h n
    split
    · split
      · simp only [List.length_append, List.length_cons, List.length_nil]
        omega
      · rename_i hstop
        apply ih
        simp only [List.length_append, List.length_cons, List.length_nil] at hstop ⊢
        omega
    · split
      · simp only [List.length_append, List.length_map]
        omega
      · rename_i hstop
        apply ih
        simp only [List.length_append, List.length_map] at hstop ⊢
        omega

end ET

namespace ET

/-- C7: the spec claims a hard cap of 150 tokens on every detection run,
but emitTokens checks the cap only after emitting a whole main group, and a
group holds at most 26 sub tokens, so the provable bound for both
extractors is 149 + 26 = 175. -/
theorem claim_C7_amended (lines : List LineP) (text : List Char) :
    (extractQuestionsFromLines lines).length ≤ 175 ∧
    (extractQuestionsFromText2 text).length ≤ 175 := by
  constructor
  · unfold extractQuestionsFromLines
    dsimp only
    rw [List.length_map]
    exact emitTokens_length_le (subWF_flLoop lines none subWF_empty) _ []
      (by simp)
  · unfold extractQuestionsFromText2
    dsimp only
    rw [List.length_map]
    have h1 : subWF (t2Combined (jsTrim (collapseAllWs (normalizeDiacritics text)))
        (combinedScan (jsTrim (collapseAllWs (normalizeDiacritics text)))) {}) :=
      subWF_t2Combined _ _ (fun m hm => combinedScan_alpha hm) subWF_empty
    have h2 := subWF_t2Loop ((splitLines text).map jsTrim) none h1
    have h3 := subWF_t2Bind (jsTrim (collapseAllWs (normalizeDiacritics text)))
      (mainHits (jsTrim (collapseAllWs (normalizeDiacritics text)))) h2
    exact emitTokens_length_le h3 _ [] (by simp)

/-- One step of the line loop when the line matches mainLineRe. -/
theorem flLoop_main_step (ln : LineP) (rest : List LineP) (st : QState)
    (cm : Option Nat) (nm : Nat × Nat)
    (hm : mainLineRe (normalizeDiacritics ln.text) = some nm) :
    flLoop st cm (ln :: rest) =
      flLoop (flMainBranch (normalizeDiacritics ln.text) ln.page nm.1 nm.2
          (rest.head?.map (fun l => normalizeDiacritics l.text))
          (flCombined (normalizeDiacritics ln.text) ln.page st))
        (some nm.1) rest := by
  rw [flLoop]
  rw [hm]

set_option maxRecDepth 4000 in
set_option maxHeartbeats 4000000 in
/-- C7 counterexample: six heading lines whose sub ranges expand to the 26
letters a to z make extractQuestionsFromLines emit 156 tokens, beyond the
claimed cap of 150. -/
theorem claim_C7_counterexample :
    150 < (extractQuestionsFromLines c7Lines).length := by
  have h1 : flLoop ({} : QState) none c7Lines =
      flLoop (c7State 1) (some 1)
        [c7Line 2, c7Line 3, c7Line 4, c7Line 5, c7Line 6] := by
    rw [show c7Lines = c7Line 1 ::
        [c7Line 2, c7Line 3, c7Line 4, c7Line 5, c7Line 6] from rfl,
      flLoop_main_step _ _ _ _ (1, 2) (by rfl)]
    exact congrArg (fun s => flLoop s (some 1)
      [c7Line 2, c7Line 3, c7Line 4, c7Line 5, c7Line 6]) (by rfl)
  have h2 : flLoop (c7State 1) (some 1)
      [c7Line 2, c7Line 3, c7Line 4, c7Line 5, c7Line 6] =
      flLoop (c7State 2) (some 2) [c7Line 3, c7Line 4, c7Line 5, c7Line 6] := by
    rw [flLoop_main_step _ _ _ _ (2, 2) (by rfl)]
    exact congrArg (fun s => flLoop s (some 2)
      [c7Line 3, c7Line 4, c7Line 5, c7Line 6]) (by rfl)
  have h3 : flLoop (c7State 2) (some 2)
      [c7Line 3, c7Line 4, c7Line 5, c7Line 6] =
      flLoop (c7State 3) (some 3) [c7Line 4, c7Line 5, c7Line 6] := by
    rw [flLoop_main_step _ _ _ _ (3, 2) (by rfl)]
    exact congrArg (fun s => flLoop s (some 3)
      [c7Line 4, c7Line 5, c7Line 6]) (by rfl)
  have h4 : flLoop (c7State 3) (some 3) [c7Line 4, c7Line 5, c7Line 6] =
      flLoop (c7State 4) (some 4) [c7Line 5, c7Line 6] := by
    rw [flLoop_main_step _ _ _ _ (4, 2) (by rfl)]
    exact congrArg (fun s => flLoop s (some 4) [c7Line 5, c7Line 6]) (by rfl)
  have h5 : flLoop (c7State 4) (some 4) [c7Line 5, c7Line 6] =
      flLoop (c7State 5) (some 5) [c7Line 6] := by
    rw [flLoop_main_step _ _ _ _ (5, 2) (by rfl)]
    exact congrArg (fun s => flLoop s (some 5) [c7Line 6]) (by rfl)
  have h6 : flLoop (c7State 5) (some 5) [c7Line 6] = c7State 6 := by
    rw [flLoop_main_step _ _ _ _ (6, 2) (by rfl)]
    exact congrArg (fun s => flLoop s (some 6) []) (by rfl)
  have hst : flLoop ({} : QState) none c7Lines = c7State 6 :=
    h1.trans (h2.trans (h3.trans (h4.trans (h5.trans h6))))
  unfold extractQuestionsFromLines
  dsimp only
  rw [List.length_map, hst]
  have he : (emitTokens (c7State 6).mainOrder (c7State 6) []).length = 156 := by
    rfl
  rw [he]
  omega

end ET

namespace ET

/-- C6 amended: the lines 20p, Sida 3 av 10 and 2024-05-21 are inert in
both text extractors (the line loops skip them and a document holding just
that line yields no question), and a Sida 3 av 10 line leaves the layout
detector state unchanged at every geometry; only the 20p line in the
layout detector escapes the claim, as the counterexample shows. -/
theorem claim_C6_amended :
    (∀ (p : Int) (st : QState) (cm : Option Nat) (rest : List LineP),
      flLoop st cm ({ text := "20p".toList, page := p } :: rest) =
        flLoop st cm rest ∧
      flLoop st cm ({ text := "Sida 3 av 10".toList, page := p } :: rest) =
        flLoop st cm rest ∧
      flLoop st cm ({ text := "2024-05-21".toList, page := p } :: rest) =
        flLoop st cm rest) ∧
    (∀ (st : QState) (cm : Option Nat) (rest : List (List Char)),
      t2Loop st cm ("20p".toList :: rest) = t2Loop st cm rest ∧
      t2Loop st cm ("Sida 3 av 10".toList :: rest) = t2Loop st cm rest ∧
      t2Loop st cm ("2024-05-21".toList :: rest) = t2Loop st cm rest) ∧
    (extractQuestionsFromText2 "20p".toList = [] ∧
     extractQuestionsFromText2 "Sida 3 av 10".toList = [] ∧
     extractQuestionsFromText2 "2024-05-21".toList = []) ∧
    (∀ (xThr minY maxY : ℚ) (page : Int) (x y : ℚ) (next : List Char)
      (st : DState),
      qdStep defaultConfig xThr minY maxY page
        { page := page, text := "Sida 3 av 10".toList, x := x, y := y }
        next st = st) := by
  refine ⟨fun p st cm rest => ⟨rfl, rfl, rfl⟩,
    fun st cm rest => ⟨rfl, rfl, rfl⟩, ⟨rfl, rfl, rfl⟩,
    fun xThr minY maxY page x y next st => rfl⟩

end ET

namespace ET

/-- C6 counterexample: a page whose only line reads 20p makes the layout
detector emit the main token 2: the points lookahead rejects the two digit
candidate 20, but backtracking accepts the one digit candidate 2, and the
left margin signal alone reaches the score threshold. -/
theorem claim_C6_counterexample :
    (detectQuestionsFromPages [c6Page] defaultConfig).tokens.map
      (fun t => (t.token, t.kind)) = [("2", TokenKind.main)] := by
  have hg : ∀ n : Nat, ([(0 : ℚ)]).getD n 0 = 0 := fun n => by cases n <;> rfl
  have hperc : percentile (allXsOf defaultConfig [c6Page])
      defaultConfig.leftMarginPercentile = 0 := by
    rw [show allXsOf defaultConfig [c6Page] = [0] from rfl]
    simp only [percentile]
    rw [if_neg (by simp)]
    exact hg _
  have hhf : isHeaderFooter 500 0 1000 defaultConfig.headerFooterPercent = none := by
    show isHeaderFooter 500 0 1000 7 = none
    simp only [isHeaderFooter]
    rw [if_neg (by norm_num), if_neg (by norm_num)]
  have hstep : qdStep defaultConfig 0 0 1000 1
      { page := 1, text := "20p".toList, x := 0, y := 500 } [] {} = c6S := by
    unfold qdStep
    dsimp only
    rw [hhf]
    rfl
  have hlm : linesMapOf defaultConfig [c6Page] =
      [(1, [{ page := 1, text := "20p".toList, x := 0, y := 500 }])] := rfl
  have hqdPage : qdPage defaultConfig 0 (linesMapOf defaultConfig [c6Page]) {}
      c6Page = c6S := by
    unfold qdPage
    dsimp only
    rw [hlm]
    show qdLineLoop defaultConfig 0 0 1000 1 {}
      [{ page := 1, text := "20p".toList, x := 0, y := 500 }] = c6S
    rw [qdLineLoop]
    show qdLineLoop defaultConfig 0 0 1000 1
      (qdStep defaultConfig 0 0 1000 1
        { page := 1, text := "20p".toList, x := 0, y := 500 } [] {}) [] = c6S
    rw [hstep]
    rfl
  unfold detectQuestionsFromPages
  dsimp only
  rw [hperc, List.foldl_cons, List.foldl_nil, hqdPage]
  rfl

end ET

namespace ET

theorem firstSome_eq_none {α β : Type} {f : α → Option β} {l : List α}
    (h : firstSome f l = none) : ∀ a ∈ l, f a = none := by
  induction l with
  | nil => intro a ha; exact absurd ha (List.not_mem_nil a)
  | cons a as ih =>
    intro b hb
    rw [firstSome] at h
    cases hf : f a with
    | some v => rw [hf] at h; exact absurd h (by simp)
    | none =>
      rw [hf] at h
      rcases List.mem_cons.mp hb with rfl | hb2
      · exact hf
      · exact ih h b hb2

theorem firstSome_none_of {α β : Type} {f : α → Option β} {l : List α}
    (h : ∀ a ∈ l, f a = none) : firstSome f l = none := by
  induction l with
  | nil => rfl
  | cons a as ih =>
    rw [firstSome, h a (List.mem_cons_self a as)]
    exact ih (fun b hb => h b (List.mem_cons_of_mem a hb))

theorem stripLitCI_cons {p : Char} {ps s r : List Char}
    (h : stripLitCI (p :: ps) s = some r) :
    ∃ c cs, s = c :: cs ∧ c.toLower = p ∧ stripLitCI ps cs = some r := by
  cases s with
  | nil => exact absurd h (by simp [stripLitCI])
  | cons c cs =>
    rw [stripLitCI] at h
    split at h
    · exact ⟨c, cs, rfl, by assumption, h⟩
    · exact absurd h (by simp)

theorem char_of_toLower_o {c : Char} (h : c.toLower = 'o') : c = 'o' ∨ c = 'O' := by
  unfold Char.toLower at h
  dsimp only at h
  split at h
  · rename_i hr
    right
    have h2 := congrArg Char.toNat h
    rw [char_toNat_ofNat (by omega)] at h2
    have h3 : c.toNat = 79 := by
      have : ('o').toNat = 111 := rfl
      omega
    exact char_toNat_injective (h3.trans (rfl : (79 : Nat) = ('O').toNat))
  · left; exact h

end ET

namespace ET

theorem reSubOnly_alpha {t : List Char} {c : Char} (h : reSubOnly t = some c) :
    asciiAlpha c = true := by
  obtain ⟨r1, _, hc⟩ := firstSome_eq_some h
  split at hc
  · rename_i c2 r2
    split at hc
    · obtain ⟨r3, _, hc2⟩ := firstSome_eq_some hc
      split at hc2
      · split at hc2
        · injection hc2 with he
          subst he
          assumption
        · exact absurd hc2 (by simp)
      · exact absurd hc2 (by simp)
    · exact absurd hc (by simp)
  · exact absurd hc (by simp)

theorem digitChar_digit {m : Nat} (hm : m < 10) :
    asciiDigit (Nat.digitChar m) = true := by
  interval_cases m <;> rfl

theorem toDigitsCore_digits :
    ∀ (fuel n : Nat) (ds : List Char), (∀ c ∈ ds, asciiDigit c = true) →
    ∀ c ∈ Nat.toDigitsCore 10 fuel n ds, asciiDigit c = true := by
  intro fuel
  induction fuel with
  | zero => intro n ds hds; exact hds
  | succ fuel ih =>
    intro n ds hds c hc
    rw [Nat.toDigitsCore] at hc
    have hnew : ∀ c2 ∈ Nat.digitChar (n % 10) :: ds, asciiDigit c2 = true := by
      intro c2 hc2
      rcases List.mem_cons.mp hc2 with rfl | hm
      · exact digitChar_digit (Nat.mod_lt n (by norm_num))
      · exact hds c2 hm
    split at hc
    · exact hnew c hc
    · exact ih _ _ hnew c hc

theorem toString_nat_digits (n : Nat) :
    ∀ c ∈ (toString n).toList, asciiDigit c = true := by
  show ∀ c ∈ Nat.toDigitsCore 10 (n + 1) n [], asciiDigit c = true
  exact toDigitsCore_digits (n + 1) n []
    (fun c hc => absurd hc (List.not_mem_nil c))

/-- A numeral string never ends in a lower case letter. -/
theorem toString_nat_ne_sub (n : Nat) (s : String) {L : Char}
    (hL : 97 ≤ L.toNat) : toString n ≠ s ++ String.singleton L := by
  intro he
  have hmem : L ∈ (toString n).toList := by
    rw [he]
    show L ∈ (s ++ String.singleton L).data
    rw [String.data_append]
    exact List.mem_append_right _ (List.mem_singleton.mpr rfl)
  have hd := toString_nat_digits n L hmem
  unfold asciiDigit at hd
  simp only [Bool.and_eq_true, decide_eq_true_eq] at hd
  have h2 : L.toNat ≤ 57 := hd.2
  omega

end ET

namespace ET

theorem dsInv_empty : dsInv ({} : DState) := by
  constructor
  · intro tk hmem
    exact absurd hmem (List.not_mem_nil tk)
  · intro h0
    exact absurd h0 (by simp)

theorem tokMain_fields {st st2 : DState} {p : String} (h : tokMain st p)
    (ht : st2.tokens = st.tokens) : tokMain st2 p := by
  obtain ⟨tk, hmem, hk, he⟩ := h
  exact ⟨tk, ht ▸ hmem, hk, he⟩

theorem dsInv_fields {st st2 : DState} (h : dsInv st)
    (ht : st2.tokens = st.tokens)
    (hl : st2.lastMain = st.lastMain ∨ st2.lastMain = 0) : dsInv st2 := by
  constructor
  · intro tk hmem hk
    rw [ht] at hmem
    obtain ⟨⟨p, hp, hpm⟩, hstr⟩ := h.1 tk hmem hk
    exact ⟨⟨p, hp, tokMain_fields hpm ht⟩, hstr⟩
  · intro h0
    rcases hl with hl | hl
    · rw [hl]
      exact tokMain_fields (h.2 (hl ▸ h0)) ht
    · rw [hl] at h0
      exact absurd h0 (by simp)

theorem tokMain_push {st : DState} {p : String} (h : tokMain st p) (t : Token) :
    tokMain (st.push t) p := by
  obtain ⟨tk, hmem, hk, he⟩ := h
  exact ⟨tk, List.mem_append_left _ hmem, hk, he⟩

theorem mem_push {st : DState} {t tk : Token} (h : tk ∈ (st.push t).tokens) :
    tk ∈ st.tokens ∨ tk = t := by
  rcases List.mem_append.mp h with h2 | h2
  · exact Or.inl h2
  · exact Or.inr (List.mem_singleton.mp h2)

theorem dsInv_push_main {st : DState} (h : dsInv st) (n : Nat) (pg : Int)
    (x y conf01 : ℚ) :
    dsInv (st.push ({ token := toString n, kind := TokenKind.main, page := pg, x := x, y := y, confidence := conf01 })) := by
  constructor
  · intro tk hmem hk
    rcases mem_push hmem with h2 | h2
    · obtain ⟨⟨p, hp, hpm⟩, hstr⟩ := h.1 tk h2 hk
      exact ⟨⟨p, hp, tokMain_push hpm _⟩, hstr⟩
    · subst h2
      exact absurd hk (by simp)
  · intro h0
    exact tokMain_push (h.2 h0) _

theorem dsInv_push_sub {st : DState} (h : dsInv st) {p : String}
    (hp : tokMain st p) {L : Char} (hL : 97 ≤ L.toNat ∧ L.toNat ≤ 122)
    (pg : Int) (x y conf01 : ℚ) :
    dsInv (st.push ({ token := p ++ String.singleton L, kind := TokenKind.sub, parent := some p, page := pg, x := x, y := y, confidence := conf01 })) := by
  constructor
  · intro tk hmem hk
    rcases mem_push hmem with h2 | h2
    · obtain ⟨⟨q, hq, hqm⟩, hstr⟩ := h.1 tk h2 hk
      exact ⟨⟨q, hq, tokMain_push hqm _⟩, hstr⟩
    · subst h2
      exact ⟨⟨p, rfl, tokMain_push hp _⟩, ⟨p, L, rfl, hL⟩⟩
  · intro h0
    exact tokMain_push (h.2 h0) _

theorem appendPos_fields {st : DState} {tok : String} {pos : Int × ℚ × ℚ}
    {tk : Token} (h : tk ∈ (st.appendPos tok pos).tokens) :
    ∃ tk0 ∈ st.tokens, tk.token = tk0.token ∧ tk.kind = tk0.kind ∧
      tk.parent = tk0.parent := by
  obtain ⟨tk0, hmem, he⟩ := List.mem_map.mp h
  refine ⟨tk0, hmem, ?he2⟩
  rw [← he]
  split <;> exact ⟨rfl, rfl, rfl⟩

theorem tokMain_appendPos {st : DState} {p : String} (h : tokMain st p)
    (tok : String) (pos : Int × ℚ × ℚ) : tokMain (st.appendPos tok pos) p := by
  obtain ⟨tk, hmem, hk, he⟩ := h
  refine ⟨if tk.token = tok then { tk with positions := tk.positions ++ [pos] }
    else tk, List.mem_map.mpr ⟨tk, hmem, rfl⟩, ?hkk⟩
  split <;> exact ⟨hk, he⟩

theorem dsInv_appendPos {st : DState} (h : dsInv st) (tok : String)
    (pos : Int × ℚ × ℚ) : dsInv (st.appendPos tok pos) := by
  constructor
  · intro tk hmem hk
    obtain ⟨tk0, hmem0, het, hek, hep⟩ := appendPos_fields hmem
    rw [hek] at hk
    obtain ⟨⟨p, hp, hpm⟩, hstr⟩ := h.1 tk0 hmem0 hk
    refine ⟨⟨p, hep.trans hp, tokMain_appendPos hpm tok pos⟩, ?hstr2⟩
    rw [het]
    exact hstr
  · intro h0
    exact tokMain_appendPos (h.2 h0) tok pos

theorem hasToken_exists {st : DState} {tok : String}
    (h : st.hasToken tok = true) : ∃ tk ∈ st.tokens, tk.token = tok := by
  unfold DState.hasToken at h
  obtain ⟨tk, hmem, he⟩ := List.any_eq_true.mp h
  exact ⟨tk, hmem, of_decide_eq_true he⟩

theorem tokMain_of_hasToken {st : DState} (h : dsInv st) {n : Nat}
    (ht : st.hasToken (toString n) = true) : tokMain st (toString n) := by
  obtain ⟨tk, hmem, he⟩ := hasToken_exists ht
  cases hk : tk.kind with
  | main => exact ⟨tk, hmem, hk, he⟩
  | sub =>
    obtain ⟨_, ⟨s, L, hes, hL, _⟩⟩ := h.1 tk hmem hk
    exact absurd (he.symm.trans hes) (toString_nat_ne_sub n s hL)

theorem dsInv_accept {stP : DState} (h : dsInv stP) {n : Nat}
    (hn : tokMain stP (toString n)) (pg : Int) :
    dsInv ({ stP with lastMain := max stP.lastMain n, lastMainPage := pg, anyMainAccepted := true }) := by
  constructor
  · intro tk hmem hk
    obtain ⟨⟨p, hp, hpm⟩, hstr⟩ := h.1 tk hmem hk
    exact ⟨⟨p, hp, tokMain_fields hpm rfl⟩, hstr⟩
  · intro h0
    have hrec : ({ stP with lastMain := max stP.lastMain n, lastMainPage := pg, anyMainAccepted := true } : DState).lastMain = max stP.lastMain n := rfl
    rcases Nat.le_total stP.lastMain n with hle | hle
    · rw [hrec, Nat.max_eq_right hle]
      exact tokMain_fields hn rfl
    · rw [hrec, Nat.max_eq_left hle]
      refine tokMain_fields (h.2 ?hpos) rfl
      rw [hrec, Nat.max_eq_left hle] at h0
      exact h0

theorem dsInv_subRangeFold {n : Nat} (pg : Int) (x y conf01 : ℚ)
    (letters : List Char)
    (hletters : ∀ L ∈ letters, 97 ≤ L.toNat ∧ L.toNat ≤ 122) :
    ∀ {s : DState}, dsInv s → tokMain s (toString n) →
    dsInv (letters.foldl (fun s L =>
      if s.hasToken (toString n ++ String.singleton L) then s
      else s.push ({ token := toString n ++ String.singleton L, kind := TokenKind.sub, parent := some (toString n), page := pg, x := x, y := y, confidence := conf01 })) s) := by
  induction letters with
  | nil => intro s hs _; exact hs
  | cons L ls ih =>
    intro s hs hn
    rw [List.foldl_cons]
    have hL := hletters L (List.mem_cons_self L ls)
    have hstep : dsInv (if s.hasToken (toString n ++ String.singleton L) then s
        else s.push ({ token := toString n ++ String.singleton L, kind := TokenKind.sub, parent := some (toString n), page := pg, x := x, y := y, confidence := conf01 })) := by
      split
      · exact hs
      · exact dsInv_push_sub hs hn hL pg x y conf01
    have hn2 : tokMain (if s.hasToken (toString n ++ String.singleton L) then s
        else s.push ({ token := toString n ++ String.singleton L, kind := TokenKind.sub, parent := some (toString n), page := pg, x := x, y := y, confidence := conf01 })) (toString n) := by
      split
      · exact hn
      · exact tokMain_push hn _
    exact ih (fun L2 hL2 => hletters L2 (List.mem_cons_of_mem L hL2)) hstep hn2

end ET

namespace ET

theorem dsInv_ite_cases {c : Prop} [Decidable c] {a b : DState}
    (ha : c → dsInv a) (hb : ¬c → dsInv b) : dsInv (if c then a else b) := by
  by_cases hc : c
  · rw [if_pos hc]
    exact ha hc
  · rw [if_neg hc]
    exact hb hc

theorem lastMain_choice (st : DState) (c : Prop) [Decidable c] (pg : Int) :
    ({ st with lastMain := if c then 0 else st.lastMain, lastSectionPage := if c then pg else st.lastSectionPage } : DState).lastMain = st.lastMain ∨
    ({ st with lastMain := if c then 0 else st.lastMain, lastSectionPage := if c then pg else st.lastSectionPage } : DState).lastMain = 0 := by
  by_cases hc : c
  · right
    dsimp only
    rw [if_pos hc]
  · left
    dsimp only
    rw [if_neg hc]

theorem dsInv_stP {st1 : DState} (h1 : dsInv st1) (n : Nat) (dbg : Bool)
    (pg : Int) (x y c1 : ℚ) :
    dsInv (if st1.hasToken (toString n) = true then
        (if dbg = true then st1.appendPos (toString n) (pg, x, y) else st1)
      else st1.push ({ token := toString n, kind := TokenKind.main, page := pg, x := x, y := y, confidence := c1 })) ∧
    tokMain (if st1.hasToken (toString n) = true then
        (if dbg = true then st1.appendPos (toString n) (pg, x, y) else st1)
      else st1.push ({ token := toString n, kind := TokenKind.main, page := pg, x := x, y := y, confidence := c1 }))
      (toString n) := by
  split
  · rename_i htk
    constructor
    · split
      · exact dsInv_appendPos h1 _ _
      · exact h1
    · split
      · exact tokMain_appendPos (tokMain_of_hasToken h1 htk) _ _
      · exact tokMain_of_hasToken h1 htk
  · constructor
    · exact dsInv_push_main h1 n pg x y c1
    · exact ⟨_, List.mem_append_right _ (List.mem_singleton.mpr rfl), rfl, rfl⟩

theorem dsInv_qdStep (conf : DetectorConfig) (xT minY maxY : ℚ) (page : Int)
    (ln : Line) (next : List Char)
    (hinl : reMainHead (normalizeTextKeepLines ln.text) = none →
      reInlineCombined (normalizeTextKeepLines ln.text) = none)
    {st : DState} (h : dsInv st) :
    dsInv (qdStep conf xT minY maxY page ln next st) := by
  unfold qdStep
  dsimp only
  cases hm : reMainHead (normalizeTextKeepLines ln.text) with
  | none =>
    rw [hinl hm]
    simp only [Option.isSome_none, Bool.false_eq_true, if_false, Option.map_none', Option.map_none,
      Bool.false_and, Bool.and_false, Bool.false_or, Bool.or_false, Bool.not_false,
      Bool.not_true, Option.isSome_some, Bool.true_and, Bool.and_true]
    cases hsub : reSubOnly (normalizeTextKeepLines ln.text) with
    | none =>
      simp only [Option.map_none']
      exact dsInv_fields h rfl (lastMain_choice st _ page)
    | some c =>
      simp only [Option.map_some', Option.isSome_some, Bool.not_true,
        Bool.false_and, Bool.false_or]
      have hL := toLower_range (reSubOnly_alpha hsub)
      split
      · rename_i hsr
        simp only [show ¬(0 < 0) from by omega, decide_False, Bool.false_eq_true,
          if_false]
        exact dsInv_fields h rfl (Or.inr rfl)
      · rename_i hsr
        by_cases h0 : 0 < st.lastMain
        · simp only [h0, decide_True, if_true, ite_true]
          split
          · exact dsInv_fields h rfl (Or.inl rfl)
          · split
            · split
              · exact dsInv_appendPos h _ _
              · exact h
            · exact dsInv_push_sub h (h.2 h0) hL page ln.x ln.y _
        · simp only [h0, decide_False, Bool.false_eq_true, if_false]
          exact h
  | some nb =>
    simp only [Option.isSome_some, Bool.true_and, Bool.and_true, if_true,
      eq_self_iff_true, ite_true, Option.isSome_none, Bool.false_eq_true, if_false,
      Option.map_none', Option.map_some', Bool.false_and, Bool.and_false,
      Bool.false_or, Bool.or_false]
    cases hr : reSubRange (List.take (conf.contextWindow + 40)
        (normalizeTextKeepLines ln.text ++ ' ' :: next)) with
    | none =>
      dsimp only
      refine dsInv_ite_cases ?hacc1 ?hrej1
      case hrej1 =>
        intro hc
        rw [if_neg hc]
        exact dsInv_fields h rfl (lastMain_choice st _ page)
      case hacc1 =>
        intro hc
        rw [if_pos hc]
        refine dsInv_accept ?hP1 ?hn1 page
        case hP1 =>
          refine (dsInv_stP ?hi1 nb.1 conf.debug page ln.x ln.y _).1
          exact dsInv_fields h rfl (lastMain_choice st _ page)
        case hn1 =>
          refine (dsInv_stP ?hi2 nb.1 conf.debug page ln.x ln.y _).2
          exact dsInv_fields h rfl (lastMain_choice st _ page)
    | some ab =>
      dsimp only
      refine dsInv_ite_cases ?hacc2 ?hrej2
      case hrej2 =>
        intro hc
        rw [if_neg hc]
        exact dsInv_fields h rfl (lastMain_choice st _ page)
      case hacc2 =>
        intro hc
        rw [if_pos hc]
        refine dsInv_subRangeFold page ln.x ln.y _ (letterRange ab.1 ab.2)
          (fun L hL => letterRange_range hL) ?hA2 ?hAn2
        case hA2 =>
          refine dsInv_accept ?hP2 ?hn2 page
          case hP2 =>
            refine (dsInv_stP ?hi3 nb.1 conf.debug page ln.x ln.y _).1
            exact dsInv_fields h rfl (lastMain_choice st _ page)
          case hn2 =>
            refine (dsInv_stP ?hi4 nb.1 conf.debug page ln.x ln.y _).2
            exact dsInv_fields h rfl (lastMain_choice st _ page)
        case hAn2 =>
          refine tokMain_fields ((dsInv_stP ?hi5
            nb.1 conf.debug page ln.x ln.y _).2) rfl
          exact dsInv_fields h rfl (lastMain_choice st _ page)

end ET

namespace ET

theorem dsInv_qdLineLoop (conf : DetectorConfig) (xT minY maxY : ℚ)
    (page : Int) : ∀ (lines : List Line),
    (∀ ln ∈ lines, reMainHead (normalizeTextKeepLines ln.text) = none →
      reInlineCombined (normalizeTextKeepLines ln.text) = none) →
    ∀ {st : DState}, dsInv st →
    dsInv (qdLineLoop conf xT minY maxY page st lines) := by
  intro lines
  induction lines with
  | nil => intro _ st h; exact h
  | cons ln rest ih =>
    intro hl st h
    rw [qdLineLoop]
    exact ih (fun l2 hl2 => hl l2 (List.mem_cons_of_mem ln hl2))
      (dsInv_qdStep conf xT minY maxY page ln _
        (hl ln (List.mem_cons_self ln rest)) h)

theorem dsInv_qdPage (conf : DetectorConfig) (xT : ℚ)
    (lm : List (Int × List Line))
    (hlm : ∀ e ∈ lm, ∀ ln ∈ e.2,
      reMainHead (normalizeTextKeepLines ln.text) = none →
      reInlineCombined (normalizeTextKeepLines ln.text) = none)
    (pi : PageInput) {st : DState}
    (h : dsInv st) : dsInv (qdPage conf xT lm st pi) := by
  have hl : ∀ ln ∈ (((lm.find? (fun e => e.1 = pi.page)).map
      (fun e => e.2)).getD []),
      reMainHead (normalizeTextKeepLines ln.text) = none →
      reInlineCombined (normalizeTextKeepLines ln.text) = none := by
    cases hf : lm.find? (fun e => e.1 = pi.page) with
    | none => intro ln hln; exact absurd hln (List.not_mem_nil ln)
    | some e =>
      intro ln hln
      exact hlm e (List.mem_of_find?_eq_some hf) ln hln
  unfold qdPage
  dsimp only
  split
  · exact h
  · exact dsInv_qdLineLoop conf xT _ _ pi.page _ hl h

theorem dsInv_qdFold (conf : DetectorConfig) (xT : ℚ)
    (lm : List (Int × List Line))
    (hlm : ∀ e ∈ lm, ∀ ln ∈ e.2,
      reMainHead (normalizeTextKeepLines ln.text) = none →
      reInlineCombined (normalizeTextKeepLines ln.text) = none) :
    ∀ (pages : List PageInput) {st : DState}, dsInv st →
    dsInv (pages.foldl (qdPage conf xT lm) st) := by
  intro pages
  induction pages with
  | nil => intro st h; exact h
  | cons pi rest ih =>
    intro st h
    rw [List.foldl_cons]
    exact ih (dsInv_qdPage conf xT lm hlm pi h)

theorem mapSetLines_prop {Q : List Line → Prop} {m : List (Int × List Line)}
    (hm : ∀ e ∈ m, Q e.2) {k : Int} {v : List Line} (hv : Q v) :
    ∀ e ∈ mapSetLines m k v, Q e.2 := by
  intro e he
  unfold mapSetLines at he
  split at he
  · obtain ⟨e0, he0, hmap⟩ := List.mem_map.mp he
    split at hmap
    · rw [← hmap]
      exact hv
    · rw [← hmap]
      exact hm e0 he0
  · rcases List.mem_append.mp he with h2 | h2
    · exact hm e h2
    · rw [List.mem_singleton.mp h2]
      exact hv

theorem linesMapOf_prop (conf : DetectorConfig) {Q : List Line → Prop} :
    ∀ (pages : List PageInput) (m : List (Int × List Line)),
    (∀ pi ∈ pages, Q (buildLinesFromItems pi.items pi.page conf)) →
    (∀ e ∈ m, Q e.2) →
    ∀ e ∈ pages.foldl (fun m2 pi => mapSetLines m2 pi.page
      (buildLinesFromItems pi.items pi.page conf)) m, Q e.2 := by
  intro pages
  induction pages with
  | nil => intro m _ hm; exact hm
  | cons pi rest ih =>
    intro m hp hm
    rw [List.foldl_cons]
    exact ih _ (fun p2 hp2 => hp p2 (List.mem_cons_of_mem pi hp2))
      (mapSetLines_prop hm (hp pi (List.mem_cons_self pi rest)))

/-- C9 as amended: in every detection result, each sub token carries a
parent equal to the token string of a main token present in the same
result, provided no reconstructed line of the input matches the inline
combined pattern while the main head pattern rejects it.  The proviso is
needed because reInlineCombined carries no i flag while reMainHead does,
so a line such as 7 P) passes the inline points lookahead yet fails the
main head one; the counterexample shows the invariant fails without it. -/
theorem claim_C9_amended (pages : List PageInput) (cfg : DetectorConfig)
    (hsafe : ∀ pi ∈ pages, ∀ ln ∈ buildLinesFromItems pi.items pi.page cfg,
      reMainHead (normalizeTextKeepLines ln.text) = none →
      reInlineCombined (normalizeTextKeepLines ln.text) = none) :
    (detectQuestionsFromPages pages cfg).tokens.all (fun tk =>
      !(decide (tk.kind = TokenKind.sub)) ||
      (detectQuestionsFromPages pages cfg).tokens.any (fun tk2 =>
        decide (tk2.kind = TokenKind.main) &&
        decide (tk.parent = some tk2.token))) = true := by
  have hlm : ∀ e ∈ linesMapOf cfg pages, ∀ ln ∈ e.2,
      reMainHead (normalizeTextKeepLines ln.text) = none →
      reInlineCombined (normalizeTextKeepLines ln.text) = none := by
    unfold linesMapOf
    exact linesMapOf_prop cfg (Q := fun v => ∀ ln ∈ v,
        reMainHead (normalizeTextKeepLines ln.text) = none →
        reInlineCombined (normalizeTextKeepLines ln.text) = none)
      pages [] hsafe (fun e he => absurd he (List.not_mem_nil e))
  have hst : ∀ (xT : ℚ),
      dsInv (pages.foldl (qdPage cfg xT (linesMapOf cfg pages)) {}) :=
    fun xT => dsInv_qdFold cfg xT (linesMapOf cfg pages) hlm pages dsInv_empty
  unfold detectQuestionsFromPages
  dsimp only
  rw [List.all_eq_true]
  intro tk hmem
  have hperm := List.perm_insertionSort tokLE
    ((pages.foldl (qdPage cfg (percentile (allXsOf cfg pages)
      cfg.leftMarginPercentile) (linesMapOf cfg pages)) {}).tokens)
  have hmem0 := hperm.mem_iff.mp hmem
  by_cases hk : tk.kind = TokenKind.sub
  · apply Bool.or_eq_true_iff.mpr
    right
    obtain ⟨⟨p, hp, tk2, hmem2, hk2, he2⟩, _⟩ := (hst _).1 tk hmem0 hk
    rw [List.any_eq_true]
    refine ⟨tk2, hperm.mem_iff.mpr hmem2, ?hb⟩
    rw [Bool.and_eq_true]
    constructor
    · exact decide_eq_true hk2
    · rw [he2, hp]
      exact decide_eq_true rfl
  · apply Bool.or_eq_true_iff.mpr
    left
    simp [hk]

/-- Witness for C9: the one page document of c6Page satisfies the inline
safety proviso, and its detection result satisfies the parent invariant. -/
theorem claim_C9_amended_witness :
    (detectQuestionsFromPages [c6Page] defaultConfig).tokens.all (fun tk =>
      !(decide (tk.kind = TokenKind.sub)) ||
      (detectQuestionsFromPages [c6Page] defaultConfig).tokens.any (fun tk2 =>
        decide (tk2.kind = TokenKind.main) &&
        decide (tk.parent = some tk2.token))) = true :=
  claim_C9_amended [c6Page] defaultConfig (by decide)

end ET

namespace ET

theorem c9hhf700 : isHeaderFooter c9L1.y 0 1000 defaultConfig.headerFooterPercent = none := by
  show isHeaderFooter 700 0 1000 7 = none
  simp only [isHeaderFooter]
  rw [if_neg (by norm_num), if_neg (by norm_num)]

theorem c9hhf500 : isHeaderFooter c9L3.y 0 1000 defaultConfig.headerFooterPercent = none := by
  show isHeaderFooter 500 0 1000 7 = none
  simp only [isHeaderFooter]
  rw [if_neg (by norm_num), if_neg (by norm_num)]

theorem c9step1 : qdStep defaultConfig 0 0 1000 1 c9L1 [] {} = c9S1 := by
  unfold qdStep
  dsimp only
  rw [c9hhf700]
  rfl

theorem c9step2 : qdStep defaultConfig 0 0 1000 2 c9L2 [] c9S1 = c9S2 := by
  rfl

theorem c9step3 : qdStep defaultConfig 0 0 1000 3 c9L3 [] c9S2 = c9S3 := by
  unfold qdStep
  dsimp only
  rw [c9hhf500]
  rfl

theorem c9getD : ∀ n : Nat, ([(0 : ℚ), 0, 0]).getD n 0 = 0 := by
  intro n
  match n with
  | 0 => rfl
  | 1 => rfl
  | 2 => rfl
  | n + 3 => rfl

theorem c9perc : percentile (allXsOf defaultConfig c9Pages)
    defaultConfig.leftMarginPercentile = 0 := by
  rw [show allXsOf defaultConfig c9Pages = [0, 0, 0] from rfl]
  simp only [percentile]
  rw [if_neg (by simp)]
  exact c9getD _

theorem c9lm : linesMapOf defaultConfig c9Pages =
    [(1, [c9L1]), (2, [c9L2]), (3, [c9L3])] := rfl

theorem c9page1 : qdPage defaultConfig 0 [(1, [c9L1]), (2, [c9L2]), (3, [c9L3])] {} c9P1 = c9S1 := by
  unfold qdPage
  dsimp only
  show qdLineLoop defaultConfig 0 0 1000 1 {} [c9L1] = c9S1
  rw [qdLineLoop]
  show qdLineLoop defaultConfig 0 0 1000 1 (qdStep defaultConfig 0 0 1000 1 c9L1 [] {}) [] = c9S1
  rw [c9step1]
  rfl

theorem c9page2 : qdPage defaultConfig 0 [(1, [c9L1]), (2, [c9L2]), (3, [c9L3])] c9S1 c9P2 = c9S2 := by
  unfold qdPage
  dsimp only
  show qdLineLoop defaultConfig 0 0 1000 2 c9S1 [c9L2] = c9S2
  rw [qdLineLoop]
  show qdLineLoop defaultConfig 0 0 1000 2 (qdStep defaultConfig 0 0 1000 2 c9L2 [] c9S1) [] = c9S2
  rw [c9step2]
  rfl

theorem c9page3 : qdPage defaultConfig 0 [(1, [c9L1]), (2, [c9L2]), (3, [c9L3])] c9S2 c9P3 = c9S3 := by
  unfold qdPage
  dsimp only
  show qdLineLoop defaultConfig 0 0 1000 3 c9S2 [c9L3] = c9S3
  rw [qdLineLoop]
  show qdLineLoop defaultConfig 0 0 1000 3 (qdStep defaultConfig 0 0 1000 3 c9L3 [] c9S2) [] = c9S3
  rw [c9step3]
  rfl

/-- C9 counterexample: after the accepted main 1 and a section heading
that resets lastMain, the line 7 P) is rejected by reMainHead (its case
insensitive points lookahead sees the P) but matched by reInlineCombined
(its points lookahead is case sensitive and fails on P, so the inline
match goes through); the match is excluded as a number followed by points,
yet the sub handling still fires through anyMainAccepted and pushes sub
token 7p with parent 7 while no main token 7 exists in the result. -/
theorem claim_C9_counterexample :
    (detectQuestionsFromPages c9Pages defaultConfig).tokens.map
      (fun tk => (tk.token, tk.kind, tk.parent)) =
      [("1", TokenKind.main, none), ("7p", TokenKind.sub, some "7")] ∧
    (detectQuestionsFromPages c9Pages defaultConfig).tokens.all (fun tk =>
      !(decide (tk.kind = TokenKind.sub)) ||
      (detectQuestionsFromPages c9Pages defaultConfig).tokens.any (fun tk2 =>
        decide (tk2.kind = TokenKind.main) &&
        decide (tk.parent = some tk2.token))) = false := by
  unfold detectQuestionsFromPages
  dsimp only
  rw [c9perc, c9lm]
  show (DetectResult.mk ((([c9P1, c9P2, c9P3].foldl (qdPage defaultConfig 0 [(1, [c9L1]), (2, [c9L2]), (3, [c9L3])]) {}).tokens).insertionSort tokLE)).tokens.map (fun tk => (tk.token, tk.kind, tk.parent)) = [("1", TokenKind.main, none), ("7p", TokenKind.sub, some "7")] ∧ (DetectResult.mk ((([c9P1, c9P2, c9P3].foldl (qdPage defaultConfig 0 [(1, [c9L1]), (2, [c9L2]), (3, [c9L3])]) {}).tokens).insertionSort tokLE)).tokens.all (fun tk => !(decide (tk.kind = TokenKind.sub)) || (DetectResult.mk ((([c9P1, c9P2, c9P3].foldl (qdPage defaultConfig 0 [(1, [c9L1]), (2, [c9L2]), (3, [c9L3])]) {}).tokens).insertionSort tokLE)).tokens.any (fun tk2 => decide (tk2.kind = TokenKind.main) && decide (tk.parent = some tk2.token))) = false
  rw [List.foldl_cons, c9page1, List.foldl_cons, c9page2, List.foldl_cons, c9page3, List.foldl_nil]
  constructor
  · rfl
  · rfl

end ET
